import Mathlib

/-
Shallow embedding of the TruckLoopReplay replay-reconstruction engine
(src/legacyAdapter.ts) and the playback-orchestrator fragments of
src/App.tsx referenced by the verified claims.

Modelling conventions:
* JavaScript numbers are rationals (ℚ).  Every arithmetic operation the
  embedded code performs is exact on the values it manipulates; for the one
  place where the JS double constants 1.25 and 0.8 appear
  (speechDurationMs) the double computation was checked to agree exactly
  with the rational one on every reachable input value.
* JS Maps and plain objects are association lists in insertion order.
* `undefined` and `null` are both modelled by `JVal.null`; the operations
  used by the adapter never distinguish them (a `null` element inside
  `core_messages` would make the original throw a TypeError on property
  access; such elements are modelled as empty records).
* The keys of `discussionByTurnAgent` and `actionByTurnAgent` are the JS
  template strings `tick:agentId`; since the string of a number never
  contains a colon this keying is injectively modelled by the pair
  `(tick, agentId)`.
-/

namespace TruckLoopReplay

attribute [local semireducible] Rat.mul Rat.add Rat.sub Rat.inv

/-- Model of an arbitrary JavaScript/JSON value. -/
inductive JVal where
  | null : JVal
  | bool (b : Bool) : JVal
  | num (q : ℚ) : JVal
  | str (s : String) : JVal
  | arr (xs : List JVal) : JVal
  | obj (kvs : List (String × JVal)) : JVal

/-- A JS record (the result of `asRecord`). -/
abbrev JRec := List (String × JVal)

/-- Association-list lookup, the model of `Map.get` / property access. -/
def alistGet {K V : Type} [DecidableEq K] : List (K × V) → K → Option V
  | [], _ => none
  | (k', v) :: t, k => if k' = k then some v else alistGet t k

/-- Association-list update, the model of `Map.set`: an existing key keeps
its position, a new key is appended (JS Map insertion order). -/
def alistSet {K V : Type} [DecidableEq K] : List (K × V) → K → V → List (K × V)
  | [], k, v => [(k, v)]
  | (k', v') :: t, k, v => if k' = k then (k', v) :: t else (k', v') :: alistSet t k v

/-- Model of `Map.has`. -/
def alistHas {K V : Type} [DecidableEq K] (m : List (K × V)) (k : K) : Bool :=
  (alistGet m k).isSome

/-- Lookup with a default, the model of `map.get(k) ?? d`. -/
def alistGetD {K V : Type} [DecidableEq K] (m : List (K × V)) (k : K) (d : V) : V :=
  (alistGet m k).getD d

/-- Model of `Set.add`: appends if absent. -/
def strSetAdd (s : List String) (x : String) : List String :=
  if x ∈ s then s else s ++ [x]

/-- Property access on a record, yielding `JVal.null` for a missing key
(the model of JS `undefined`). -/
def rget (r : JRec) (k : String) : JVal :=
  (alistGet r k).getD JVal.null

/-- Model of `asRecord` (legacyAdapter.ts:63): any non-object value becomes
the empty record. -/
def asRecord : JVal → JRec
  | JVal.obj kvs => kvs
  | _ => []

/-- Model of `asNumber` (legacyAdapter.ts:67). -/
def asNumber (v : JVal) (fallback : ℚ) : ℚ :=
  match v with
  | JVal.num q => q
  | _ => fallback

/-- Model of `asString` (legacyAdapter.ts:71). -/
def asString (v : JVal) (fallback : String) : String :=
  match v with
  | JVal.str s => s
  | _ => fallback

/-- JS string `||`: the left operand unless it is empty (falsy). -/
def jsOr (a b : String) : String :=
  if a = "" then b else a

/-- Model of `a ?? b` on JS values (null and undefined trigger the default). -/
def jsNullish (a b : JVal) : JVal :=
  match a with
  | JVal.null => b
  | _ => a

/-- Integer division truncated toward zero, stated with natural division so
that concrete values evaluate inside the kernel. -/
def intTruncDiv (p q : ℤ) : ℤ :=
  if (0 ≤ p) = (0 ≤ q) then (p.natAbs / q.natAbs : ℕ) else -((p.natAbs / q.natAbs : ℕ) : ℤ)

/-- JS remainder operator `%` on numbers: `a - b * trunc(a / b)`, with the
truncated quotient of `a / b` computed from numerators and denominators. -/
def jsRem (a b : ℚ) : ℚ :=
  a - b * (intTruncDiv (a.num * (b.den : ℤ)) (b.num * (a.den : ℤ)) : ℚ)

/-- The two move directions of the adapter. -/
inductive Dir where
  | forward : Dir
  | backward : Dir
deriving DecidableEq

/-- The string the direction would carry in the source. -/
def dirStr : Dir → String
  | Dir.forward => "forward"
  | Dir.backward => "backward"

/-- Sign used for a declared direction (`declaredSign` in the source). -/
def dirSign : Dir → ℚ
  | Dir.forward => 1
  | Dir.backward => -1

/-- Characters the JS `\s` class (and `String.trim`) treats as whitespace;
the ASCII part is exact, plus the common Unicode members. -/
def jsWs (c : Char) : Bool :=
  c = ' ' || c = '\t' || c = '\n' || c = '\r' ||
  c.val = 11 || c.val = 12 || c.val = 160 || c.val = 0xfeff ||
  c.val = 0x2028 || c.val = 0x2029 || c.val = 0x3000

/-- Drop trailing elements satisfying a predicate. -/
def dropRightWhile (p : Char → Bool) (cs : List Char) : List Char :=
  (cs.reverse.dropWhile p).reverse

/-- Model of JS `String.prototype.trim`. -/
def jsTrim (s : String) : String :=
  String.mk (dropRightWhile jsWs (s.data.dropWhile jsWs))

/-- Model of JS `String.prototype.toLowerCase` (ASCII-exact). -/
def jsLower (s : String) : String :=
  String.mk (s.data.map Char.toLower)

/-- Substring test on character lists (model of `String.includes`). -/
def listContainsSub : List Char → List Char → Bool
  | _, [] => true
  | [], _ :: _ => false
  | h :: t, n => n.isPrefixOf (h :: t) || listContainsSub t n

/-- Model of JS `String.includes`. -/
def strIncludes (hay needle : String) : Bool :=
  listContainsSub hay.data needle.data

/-- Model of `wrapTrack` (legacyAdapter.ts:134). -/
def wrapTrack (position trackLength : ℚ) : ℚ :=
  let track := max 1 trackLength
  jsRem (jsRem position track + track) track

/-- Model of `circularDistance` (legacyAdapter.ts:139). -/
def circularDistance (fromPos toPos trackLength : ℚ) : ℚ :=
  let track := max 1 trackLength
  let a := wrapTrack fromPos track
  let b := wrapTrack toPos track
  let d := |a - b|
  min d (track - d)

/-- Model of `inferDirectionByPosition` (legacyAdapter.ts:147). -/
def inferDirectionByPosition (fromPos toPos : ℚ) (declared : Dir)
    (steps trackLength : ℚ) : Dir :=
  let track := max 1 trackLength
  let fromW := wrapTrack fromPos track
  let toW := wrapTrack toPos track
  let forward := jsRem (toW - fromW + track) track
  let backward := jsRem (fromW - toW + track) track
  if forward = steps ∧ backward ≠ steps then Dir.forward
  else if backward = steps ∧ forward ≠ steps then Dir.backward
  else
    let df := |forward - steps|
    let db := |backward - steps|
    if df < db then Dir.forward
    else if db < df then Dir.backward
    else declared

/-- Model of `parseMoveDirection` (legacyAdapter.ts:126). -/
def parseMoveDirection (raw : JVal) : Dir :=
  let value := jsLower (jsTrim (asString raw ""))
  if value = "backward" ∨ value = "counterclockwise" ∨
     value = "counter_clockwise" ∨ value = "ccw" then Dir.backward
  else Dir.forward

/-- Model of `compactTrackSize` (legacyAdapter.ts:75): `some` exactly when
the source returns a (positive) number, `none` for its `null`. -/
def compactTrackSize (payload : JRec) : Option ℚ :=
  let request := asRecord (rget payload "request")
  let compactPs := asRecord (rget request "ps")
  let publicState := asRecord (rget request "public_state")
  let compactTs := asNumber (rget compactPs "ts") 0
  if 0 < compactTs then some compactTs
  else
    let fullTs := asNumber (rget publicState "track_size") 0
    if 0 < fullTs then some fullTs else none

/-- Model of `compactPlayerPositions` (legacyAdapter.ts:85). -/
def compactPlayerPositions (payload : JRec) : List (String × ℚ) :=
  let request := asRecord (rget payload "request")
  let compactPs := asRecord (rget request "ps")
  let fullPublic := asRecord (rget request "public_state")
  let source := asRecord (jsNullish (rget compactPs "pp") (rget fullPublic "player_positions"))
  source.map (fun kv => (kv.1, asNumber kv.2 0))

/-- Model of `isCommentatorIdentity` (legacyAdapter.ts:115). -/
def isCommentatorIdentity (agentId aiName : String) : Bool :=
  let id := jsLower (jsTrim agentId)
  let name := jsLower (jsTrim aiName)
  id = "commentator" || id.startsWith "commentator" ||
  strIncludes name "解说" || strIncludes name "commentator"

/-! ### Message sanitization (legacyAdapter.ts:97, `parseAgentMessage`)

The five regex-replace passes of the inner `sanitize` closure are modelled
as character-list transformers with the exact scanning, laziness and
backtracking behaviour of the JS regexes involved. -/

/-- The backtick character (96). -/
def btick : Char := Char.ofNat 96

/-- Left and right curly brace characters. -/
def lbraceChar : Char := Char.ofNat 123

/-- Right curly brace character (125). -/
def rbraceChar : Char := Char.ofNat 125

/-- Case-insensitive prefix test; the pattern is given lowercase. -/
def isPrefixCI : List Char → List Char → Bool
  | [], _ => true
  | _ :: _, [] => false
  | p :: ps, c :: cs => (Char.toLower c = p) && isPrefixCI ps cs

/-- Does the list start with three backticks? -/
def startsTriple (cs : List Char) : Bool :=
  match cs with
  | a :: b :: c :: _ => a = btick && b = btick && c = btick
  | _ => false

/-- Does the list start with a code fence opener ` ```json ` (the `i` flag
of the pattern makes the `json` part case-insensitive)? -/
def startsJsonFence (cs : List Char) : Bool :=
  isPrefixCI "```json".data cs

/-- Split at the first occurrence of three backticks, returning the part
before and the part after the triple. -/
def splitTriple : List Char → Option (List Char × List Char)
  | [] => none
  | c :: rest =>
    if startsTriple (c :: rest) then some ([], rest.drop 2)
    else
      match splitTriple rest with
      | some (pre, post) => some (c :: pre, post)
      | none => none

/-- Does a case-sensitive `"tool_calls"` followed by optional whitespace and
a colon occur at the head of the list (the test `/"tool_calls"\s*:/`)? -/
def toolCallsAt (cs : List Char) : Bool :=
  "\"tool_calls\"".data.isPrefixOf cs &&
    (match (cs.drop 12).dropWhile jsWs with
     | d :: _ => d = ':'
     | [] => false)

/-- Does `/"tool_calls"\s*:/` match anywhere in the list? -/
def hasToolCallsColon : List Char → Bool
  | [] => false
  | c :: rest => toolCallsAt (c :: rest) || hasToolCallsColon rest

/-- Pass 1 of `sanitize`: `/```json[\s\S]*?```/gi` with a callback that
erases the block only when it contains a tool-call key. Lazy matching takes
the nearest closing triple; a kept block is emitted unchanged and scanning
resumes after it. -/
def pass1Go : ℕ → List Char → List Char
  | 0, cs => cs
  | _ + 1, [] => []
  | fuel + 1, c :: rest =>
    if startsJsonFence (c :: rest) then
      match splitTriple ((c :: rest).drop 7) with
      | some (content, post) =>
        let block := (c :: rest).take 7 ++ content ++ [btick, btick, btick]
        (if hasToolCallsColon block then [] else block) ++ pass1Go fuel post
      | none => c :: pass1Go fuel rest
    else c :: pass1Go fuel rest

/-- Pass 1 wrapper. -/
def pass1 (cs : List Char) : List Char := pass1Go cs.length cs

/-- Pass 2 of `sanitize`: `/```[\s\S]*?```/g` erases every remaining fenced
block, tool call or not. -/
def pass2Go : ℕ → List Char → List Char
  | 0, cs => cs
  | _ + 1, [] => []
  | fuel + 1, c :: rest =>
    if startsTriple (c :: rest) then
      match splitTriple ((c :: rest).drop 3) with
      | some (_, post) => pass2Go fuel post
      | none => c :: pass2Go fuel rest
    else c :: pass2Go fuel rest

/-- Pass 2 wrapper. -/
def pass2 (cs : List Char) : List Char := pass2Go cs.length cs

/-- Split at the first (leftmost) ` ```json ` fence, returning the prefix
before it and the suffix starting at the fence. -/
def findJsonFenceSplit : List Char → Option (List Char × List Char)
  | [] => none
  | c :: rest =>
    if startsJsonFence (c :: rest) then some ([], c :: rest)
    else
      match findJsonFenceSplit rest with
      | some (pre, suf) => some (c :: pre, suf)
      | none => none

/-- Pass 3 of `sanitize`: `/\n?\s*```json[\s\S]*$/gi` with the same
keep-unless-tool-calls callback. The leftmost match runs from the start of
the whitespace run preceding the first fence to the end of the string. -/
def pass3 (cs : List Char) : List Char :=
  match findJsonFenceSplit cs with
  | none => cs
  | some (pre, suf) =>
    let preKeep := dropRightWhile jsWs pre
    let block := pre.drop preKeep.length ++ suf
    if hasToolCallsColon block then preKeep else cs

/-- Find the first case-insensitive `"tool_calls"` followed by optional
whitespace and a colon; return the remainder after the colon. -/
def toolCallsColonSplitCI : List Char → Option (List Char)
  | [] => none
  | c :: rest =>
    if isPrefixCI "\"tool_calls\"".data (c :: rest) then
      match ((c :: rest).drop 12).dropWhile jsWs with
      | d :: tail => if d = ':' then some tail else toolCallsColonSplitCI rest
      | [] => toolCallsColonSplitCI rest
    else toolCallsColonSplitCI rest

/-- Tail test for pass 4, applied to the characters after a `\x7b`: the
pattern `[\s\S]*"tool_calls"\s*:[\s\S]*\}\s*$` (case-insensitive) matches
exactly when some tool-call key-colon occurs and the last non-whitespace
character after its colon is `\x7d`. -/
def braceTail (cs : List Char) : Bool :=
  match toolCallsColonSplitCI cs with
  | none => false
  | some tail =>
    match (dropRightWhile jsWs tail).getLast? with
    | some c => c = rbraceChar
    | none => false

/-- Split at the first opening brace whose tail matches pass 4's pattern. -/
def findBraceSplit : List Char → Option (List Char × List Char)
  | [] => none
  | c :: rest =>
    if c = lbraceChar && braceTail rest then some ([], rest)
    else
      match findBraceSplit rest with
      | some (pre, suf) => some (c :: pre, suf)
      | none => none

/-- Pass 4 of `sanitize`: `/\n?\s*\{[\s\S]*"tool_calls"\s*:[\s\S]*\}\s*$/i`
replaced by the empty string; the leftmost match extends from the start of
the whitespace run preceding the admissible brace to the end. -/
def pass4 (cs : List Char) : List Char :=
  match findBraceSplit cs with
  | none => cs
  | some (pre, _) => dropRightWhile jsWs pre

/-- Pass 5 of `sanitize`: `/```+/g` erases every run of three or more
backticks (runs of one or two survive). -/
def pass5Go : ℕ → List Char → List Char
  | 0, cs => cs
  | _ + 1, [] => []
  | fuel + 1, c :: rest =>
    if startsTriple (c :: rest) then pass5Go fuel ((c :: rest).dropWhile (fun x => x = btick))
    else c :: pass5Go fuel rest

/-- Pass 5 wrapper. -/
def pass5 (cs : List Char) : List Char := pass5Go cs.length cs

/-- Model of the inner `sanitize` closure of `parseAgentMessage`
(legacyAdapter.ts:98-106). -/
def sanitize (input : String) : String :=
  jsTrim (String.mk (pass5 (pass4 (pass3 (pass2 (pass1 input.data))))))

/-! ### A model of the `JSON.parse` builtin

Only used by `parseAgentMessage`; every verified statement is independent
of its precise behaviour (parse failure falls back to sanitizing the raw
text, exactly as the `catch` branch does). Deliberate simplifications:
leading-zero number literals are accepted, and `\u` escapes for surrogate
halves map to NUL. -/

/-- JSON whitespace. -/
def jsonWsChar (c : Char) : Bool :=
  c = ' ' || c = '\t' || c = '\n' || c = '\r'

/-- Hexadecimal digit value. -/
def hexVal (c : Char) : Option ℕ :=
  if c.isDigit then some (c.toNat - 48)
  else if 'a' ≤ c ∧ c ≤ 'f' then some (c.toNat - 87)
  else if 'A' ≤ c ∧ c ≤ 'F' then some (c.toNat - 55)
  else none

/-- Single-character JSON escapes. -/
def escChar (c : Char) : Option Char :=
  if c = '"' then some '"'
  else if c = '\\' then some '\\'
  else if c = '/' then some '/'
  else if c = 'b' then some (Char.ofNat 8)
  else if c = 'f' then some (Char.ofNat 12)
  else if c = 'n' then some '\n'
  else if c = 'r' then some '\r'
  else if c = 't' then some '\t'
  else none

/-- Parse a JSON string body (after the opening quote); returns the decoded
characters and the remainder after the closing quote. -/
def pjStrGo : ℕ → List Char → Option (List Char × List Char)
  | 0, _ => none
  | _ + 1, [] => none
  | fuel + 1, c :: rest =>
    if c = '"' then some ([], rest)
    else if c = '\\' then
      match rest with
      | [] => none
      | e :: rest2 =>
        if e = 'u' then
          match rest2 with
          | a :: b :: c2 :: d :: rest3 =>
            match hexVal a, hexVal b, hexVal c2, hexVal d with
            | some ha, some hb, some hc, some hd =>
              match pjStrGo fuel rest3 with
              | some (cs, rem) => some (Char.ofNat (((ha * 16 + hb) * 16 + hc) * 16 + hd) :: cs, rem)
              | none => none
            | _, _, _, _ => none
          | _ => none
        else
          match escChar e with
          | some ec =>
            match pjStrGo fuel rest2 with
            | some (cs, rem) => some (ec :: cs, rem)
            | none => none
          | none => none
    else
      match pjStrGo fuel rest with
      | some (cs, rem) => some (c :: cs, rem)
      | none => none

/-- Numeric value of a digit list. -/
def digitsVal (cs : List Char) : ℕ :=
  cs.foldl (fun a c => a * 10 + (c.toNat - 48)) 0

/-- Parse a JSON number literal. -/
def pjNum (cs : List Char) : Option (ℚ × List Char) :=
  let sign : ℚ × List Char := match cs with
    | c :: t => if c = '-' then (-1, t) else (1, cs)
    | [] => (1, [])
  let cs1 := sign.2
  let intDigits := cs1.takeWhile Char.isDigit
  let cs2 := cs1.dropWhile Char.isDigit
  if intDigits = [] then none
  else
    let fracStep : Option (List Char × List Char) := match cs2 with
      | c :: t =>
        if c = '.' then
          let fd := t.takeWhile Char.isDigit
          if fd = [] then none else some (fd, t.dropWhile Char.isDigit)
        else some ([], cs2)
      | [] => some ([], cs2)
    match fracStep with
    | none => none
    | some (fracDigits, cs3) =>
      let expStep : Option (ℤ × List Char) := match cs3 with
        | c :: t =>
          if c = 'e' ∨ c = 'E' then
            let signedT : ℤ × List Char := match t with
              | d :: t2 => if d = '-' then (-1, t2) else if d = '+' then (1, t2) else (1, t)
              | [] => (1, [])
            let ed := signedT.2.takeWhile Char.isDigit
            if ed = [] then none
            else some (signedT.1 * (digitsVal ed : ℤ), signedT.2.dropWhile Char.isDigit)
          else some (0, cs3)
        | [] => some (0, cs3)
      match expStep with
      | none => none
      | some (ex, cs4) =>
        let mantissa : ℚ := (digitsVal intDigits : ℚ) +
          (digitsVal fracDigits : ℚ) / ((10 : ℚ) ^ fracDigits.length)
        some (sign.1 * mantissa * (10 : ℚ) ^ ex, cs4)

mutual

/-- Parse a JSON value. -/
def pjVal : ℕ → List Char → Option (JVal × List Char)
  | 0, _ => none
  | fuel + 1, cs0 =>
    let cs := cs0.dropWhile jsonWsChar
    match cs with
    | [] => none
    | c :: rest =>
      if c = '"' then
        match pjStrGo (rest.length + 1) rest with
        | some (body, rem) => some (JVal.str (String.mk body), rem)
        | none => none
      else if c = '[' then pjArrStart fuel rest
      else if c = lbraceChar then pjObjStart fuel rest
      else if "null".data.isPrefixOf cs then some (JVal.null, cs.drop 4)
      else if "true".data.isPrefixOf cs then some (JVal.bool true, cs.drop 4)
      else if "false".data.isPrefixOf cs then some (JVal.bool false, cs.drop 5)
      else
        match pjNum cs with
        | some (q, rem) => some (JVal.num q, rem)
        | none => none

/-- After `[`: empty array or element loop. -/
def pjArrStart : ℕ → List Char → Option (JVal × List Char)
  | 0, _ => none
  | fuel + 1, cs =>
    match cs.dropWhile jsonWsChar with
    | c :: rest => if c = ']' then some (JVal.arr [], rest) else pjArrLoop fuel cs []
    | [] => none

/-- Array element loop. -/
def pjArrLoop : ℕ → List Char → List JVal → Option (JVal × List Char)
  | 0, _, _ => none
  | fuel + 1, cs, acc =>
    match pjVal fuel cs with
    | none => none
    | some (v, rem) =>
      match rem.dropWhile jsonWsChar with
      | c :: rem2 =>
        if c = ',' then pjArrLoop fuel rem2 (v :: acc)
        else if c = ']' then some (JVal.arr (v :: acc).reverse, rem2)
        else none
      | [] => none

/-- After an opening brace: empty object or member loop. -/
def pjObjStart : ℕ → List Char → Option (JVal × List Char)
  | 0, _ => none
  | fuel + 1, cs =>
    match cs.dropWhile jsonWsChar with
    | c :: rest => if c = rbraceChar then some (JVal.obj [], rest) else pjObjLoop fuel cs []
    | [] => none

/-- Object member loop. -/
def pjObjLoop : ℕ → List Char → List (String × JVal) → Option (JVal × List Char)
  | 0, _, _ => none
  | fuel + 1, cs, acc =>
    match cs.dropWhile jsonWsChar with
    | c :: rest =>
      if c = '"' then
        match pjStrGo (rest.length + 1) rest with
        | some (key, rem) =>
          match rem.dropWhile jsonWsChar with
          | d :: rem2 =>
            if d = ':' then
              match pjVal fuel rem2 with
              | some (v, rem3) =>
                match rem3.dropWhile jsonWsChar with
                | e :: rem4 =>
                  if e = ',' then pjObjLoop fuel rem4 ((String.mk key, v) :: acc)
                  else if e = rbraceChar then some (JVal.obj ((String.mk key, v) :: acc).reverse, rem4)
                  else none
                | [] => none
              | none => none
            else none
          | [] => none
        | none => none
      else none
    | [] => none

end

/-- Model of `JSON.parse`: `none` for a syntax error (the `catch` branch). -/
def jsonParse (s : String) : Option JVal :=
  match pjVal (2 * s.length + 2) s.data with
  | some (v, rem) => if rem.dropWhile jsonWsChar = [] then some v else none
  | none => none

/-- Model of `parseAgentMessage` (legacyAdapter.ts:97-113). A `JSON.parse`
success whose result has no string `message` property sanitizes the raw
input, matching the fallback of `asString(parsed.message, raw)` (and a
parsed `null`, whose property access throws into the `catch` branch,
yields the same result). -/
def parseAgentMessage (raw : String) : String :=
  match jsonParse raw with
  | some v => sanitize (asString (rget (asRecord v) "message") raw)
  | none => sanitize raw

/-! ### Playback-orchestrator fragments (src/App.tsx) -/

/-- App.tsx:334, `DIALOGUE_TIME_SCALE = 1.25`. -/
def DIALOGUE_TIME_SCALE : ℚ := 5 / 4

/-- App.tsx:335, `SPEECH_TIME_COMPENSATION = 0.8`; exact on every value the
clamp can produce (checked against IEEE doubles). -/
def SPEECH_TIME_COMPENSATION : ℚ := 4 / 5

/-- JS `String.prototype.length` counts UTF-16 code units. -/
def jsStrLength16 (s : String) : ℕ :=
  (s.data.map (fun c => if c.toNat ≥ 0x10000 then 2 else 1)).sum

/-- Model of `speechDurationMs` (App.tsx:339-346). -/
def speechDurationMs (message : String) (multiplier : ℚ) : ℚ :=
  max 2200 (min 9000 (1400 + (jsStrLength16 message : ℚ) * 36)) *
    DIALOGUE_TIME_SCALE * SPEECH_TIME_COMPENSATION * max 1 multiplier

/-! ### Data model (src/types.ts, legacyAdapter.ts:3-58) -/

/-- Delivery channel of a discussion entry. -/
inductive Delivery where
  | pub : Delivery
  | priv : Delivery
deriving DecidableEq

/-- Mutable per-player registry record (legacyAdapter.ts:48, `MutablePlayer`). -/
structure MutablePlayer where
  player_id : String
  name : String
  avatar : String
  position : ℚ
  facing : ℚ
  vote_reverse : Option Bool
  hp : ℚ
  inventory : List (String × ℚ)
  message : String
deriving DecidableEq

/-- Snapshot player record (types.ts, `PlayerState`); `avatar` is `none`
when the registry avatar was empty (`player.avatar || null`). -/
structure PlayerState where
  player_id : String
  name : String
  avatar : Option String
  position : ℚ
  facing : ℚ
  vote_reverse : Option Bool
  hp : ℚ
  inventory : List (String × ℚ)
  message : String
deriving DecidableEq

/-- Truck record (types.ts, `TruckState`). -/
structure TruckState where
  position : ℚ
  direction : ℚ
  speed : ℚ
  can_multi_hit : Bool
deriving DecidableEq

/-- Bounded-log entry (types.ts, `GameState.logs`). -/
structure LogEntry where
  ts : ℕ
  tick : ℚ
  kind : String
  payload : JRec

/-- Snapshot of the whole game state (types.ts, `GameState`). -/
structure GameState where
  tick : ℚ
  track_length : ℚ
  players : List PlayerState
  truck : TruckState
  items : List JVal
  logs : List LogEntry

/-- A labelled snapshot (legacyAdapter.ts:3, `ReplayFrame`). -/
structure ReplayFrame where
  state : GameState
  label : String

/-- One discrete move decision (legacyAdapter.ts:8, `ReplayAction`). -/
structure ReplayAction where
  tick : ℚ
  agent_id : String
  ai_name : String
  steps : ℚ
  direction : Dir
  message : String
  discussion_message : String
  action_message : String
  frameIndex : ℕ

/-- One discussion utterance (legacyAdapter.ts:20, `ReplayDiscussion`). -/
structure ReplayDiscussion where
  tick : ℚ
  agent_id : String
  ai_name : String
  message : String
  delivery : Delivery
  targets : List String
  frameIndex : ℕ

/-- The reconstructor's result triple (legacyAdapter.ts:30, `ReplayTimeline`). -/
structure ReplayTimeline where
  frames : List ReplayFrame
  actions : List ReplayAction
  discussions : List ReplayDiscussion

/-- Last-known intent registry entry (legacyAdapter.ts:211). -/
structure Intent where
  message : String
  steps : ℚ
  direction : Dir
  tick : ℚ
  ai_name : String

/-- `FALLBACK_TRACK` (legacyAdapter.ts:60). -/
def FALLBACK_TRACK : ℚ := 48

/-- `FALLBACK_HP` (legacyAdapter.ts:61). -/
def FALLBACK_HP : ℚ := 3

/-- The whole mutable environment of `parseLegacyExport`'s closure.
`maxHpAtPush` is instrumentation only: it records the value of `maxHpSeen`
at the moment each frame was pushed, so that the specification's
"ceiling observed up to that point" can be stated; no embedded operation
reads it. -/
structure ParseState where
  players : List (String × MutablePlayer)
  aiNameById : List (String × String)
  aiIdByName : List (String × String)
  avatarById : List (String × String)
  logs : List LogEntry
  frames : List ReplayFrame
  actions : List ReplayAction
  discussions : List ReplayDiscussion
  lastIntentByAgent : List (String × Intent)
  discussionByTurnAgent : List ((ℚ × String) × String)
  actionByTurnAgent : List ((ℚ × String) × String)
  knownPositionByAgent : List String
  inferredSpawnDone : List String
  tick : ℚ
  trackLength : ℚ
  maxHpSeen : ℚ
  seq : ℕ
  truck : TruckState
  maxHpAtPush : List ℚ

/-- Clone of a registry player into a snapshot player (legacyAdapter.ts:175). -/
def playerToState (p : MutablePlayer) : PlayerState :=
  { player_id := p.player_id
    name := p.name
    avatar := if p.avatar = "" then none else some p.avatar
    position := p.position
    facing := p.facing
    vote_reverse := p.vote_reverse
    hp := p.hp
    inventory := p.inventory
    message := p.message }

/-- Snapshot of the live registries (legacyAdapter.ts:168, `cloneState`);
players appear in map insertion order. -/
def cloneState (st : ParseState) : GameState :=
  { tick := st.tick
    track_length := st.trackLength
    players := st.players.map (fun kp => playerToState kp.2)
    truck := st.truck
    items := []
    logs := st.logs }

/-- `backfillFallbackHp` (legacyAdapter.ts:232-245): on a strictly larger
ceiling, upgrade exactly the placeholder HP values (== FALLBACK_HP) in the
registry and in every already-pushed frame. -/
def backfillFallbackHp (nextMaxHp : ℚ) (st : ParseState) : ParseState :=
  if nextMaxHp > st.maxHpSeen then
    { st with
      maxHpSeen := nextMaxHp
      players := st.players.map (fun kp =>
        (kp.1, if kp.2.hp = FALLBACK_HP then { kp.2 with hp := nextMaxHp } else kp.2))
      frames := st.frames.map (fun fr =>
        { fr with state := { fr.state with players := fr.state.players.map (fun p =>
            if p.hp = FALLBACK_HP then { p with hp := nextMaxHp } else p) } }) }
  else st

/-- First block of `ensurePlayer` (legacyAdapter.ts:248-263): create the
registry entry or refresh its name. -/
def ensurePlayerBase (agentId aiName avatar : String) (st : ParseState) : ParseState :=
  if alistHas st.players agentId then
    if aiName ≠ "" then
      match alistGet st.players agentId with
      | some current => { st with players := alistSet st.players agentId ({ current with name := aiName }) }
      | none => st
    else st
  else
    let newPlayer : MutablePlayer :=
      { player_id := agentId
        name := jsOr aiName agentId
        avatar := avatar
        position := 0
        facing := 1
        vote_reverse := none
        hp := st.maxHpSeen
        inventory := []
        message := "" }
    { st with players := alistSet st.players agentId newPlayer }

/-- Second block of `ensurePlayer` (legacyAdapter.ts:264-268): refresh the
avatar and its registry. -/
def ensurePlayerAvatar (agentId avatar : String) (st : ParseState) : ParseState :=
  if avatar ≠ "" then
    let st :=
      match alistGet st.players agentId with
      | some current => { st with players := alistSet st.players agentId ({ current with avatar := avatar }) }
      | none => st
    { st with avatarById := alistSet st.avatarById agentId avatar }
  else st

/-- Third block of `ensurePlayer` (legacyAdapter.ts:269-272): refresh the
name registries. -/
def ensurePlayerNames (agentId aiName : String) (st : ParseState) : ParseState :=
  if aiName ≠ "" then
    { st with aiNameById := alistSet st.aiNameById agentId aiName
              aiIdByName := alistSet st.aiIdByName aiName agentId }
  else st

/-- `ensurePlayer` (legacyAdapter.ts:247-273). -/
def ensurePlayer (agentId aiName avatar : String) (st : ParseState) : ParseState :=
  ensurePlayerNames agentId aiName
    (ensurePlayerAvatar agentId avatar (ensurePlayerBase agentId aiName avatar st))

/-- `ensureCommentatorExists` (legacyAdapter.ts:275-287). -/
def ensureCommentatorExists (st : ParseState) : ParseState :=
  if st.players.any (fun kp => isCommentatorIdentity kp.2.player_id kp.2.name) then st
  else
    let st := ensurePlayer "commentator" "解说员" "" st
    match alistGet st.players "commentator" with
    | some c =>
      let c2 := { c with position := (0 : ℚ), facing := (1 : ℚ), hp := max c.hp st.maxHpSeen,
                         message := jsOr c.message "解说席待命中..." }
      { st with players := alistSet st.players "commentator" c2 }
    | none => st

/-- `pushLog` (legacyAdapter.ts:298-302): append, cap at 120 (oldest spliced
away), bump the sequence counter. -/
def pushLog (kind : String) (payload : JRec) (st : ParseState) : ParseState :=
  let l := st.logs ++ [{ ts := st.seq, tick := st.tick, kind := kind, payload := payload }]
  { st with logs := if l.length > 120 then l.drop (l.length - 120) else l
            seq := st.seq + 1 }

/-- `pushFrame` (legacyAdapter.ts:304-309), plus the `maxHpAtPush`
instrumentation. -/
def pushFrame (label : String) (st : ParseState) : ParseState :=
  { st with frames := st.frames ++ [{ state := cloneState st, label := label }]
            maxHpAtPush := st.maxHpAtPush ++ [st.maxHpSeen] }

/-- Update a present player in place (`players.get` + mutation). -/
def setPlayer (agentId : String) (f : MutablePlayer → MutablePlayer) (st : ParseState) : ParseState :=
  match alistGet st.players agentId with
  | some p => { st with players := alistSet st.players agentId (f p) }
  | none => st

/-- `game_started` branch (legacyAdapter.ts:321-333). -/
def handleGameStarted (payload : JRec) (st : ParseState) : ParseState :=
  let ids := match rget payload "alive_agents" with | JVal.arr xs => xs | _ => []
  let names := match rget payload "alive_ai_names" with | JVal.arr xs => xs | _ => []
  let st := ids.enum.foldl (fun st p =>
    let agentId := asString p.2 ""
    ensurePlayer agentId (asString (names.getD p.1 JVal.null) agentId)
      (alistGetD st.avatarById agentId "") st) st
  let t1 := { st.truck with position := asNumber (rget payload "truck_position") st.truck.position }
  let t2 := { t1 with direction := if 0 ≤ asNumber (rget payload "truck_direction") t1.direction then (1 : ℚ) else -1 }
  let t3 := { t2 with speed := max 1 (asNumber (rget payload "truck_rage") t2.speed) }
  pushFrame "game_started" { st with truck := t3 }

/-- Registry/intent update of an agent text event (legacyAdapter.ts:348-373,
the body of `if (agentId)`). -/
def agentTextUpdate (event : String) (payload : JRec) (agentId aiName : String)
    (st : ParseState) : ParseState :=
  let text := parseAgentMessage (asString (rget payload "message") "")
  let st :=
    match alistGet st.players agentId with
    | some player =>
      let st := { st with players := alistSet st.players agentId ({ player with message := text }) }
      if event ≠ "commentator_response" then
        pushLog (if isCommentatorIdentity agentId (jsOr aiName agentId) then "commentary" else "player_speak")
          [("player_id", JVal.str agentId), ("text", JVal.str text),
           ("source", JVal.str "agent_interaction")] st
      else st
    | none => st
  let st :=
    if event = "discussion_response" ∧ text ≠ "" then
      { st with discussionByTurnAgent := alistSet st.discussionByTurnAgent (st.tick, agentId) text }
    else st
  let st :=
    if event = "agent_response" ∧ text ≠ "" then
      { st with actionByTurnAgent := alistSet st.actionByTurnAgent (st.tick, agentId) text }
    else st
  let intent : Intent :=
    { message := text
      steps := asNumber (rget payload "steps") 0
      direction := parseMoveDirection (rget payload "direction")
      tick := st.tick
      ai_name := jsOr aiName agentId }
  { st with lastIntentByAgent := alistSet st.lastIntentByAgent agentId intent }

/-- Frame and discussion emission of an agent text event
(legacyAdapter.ts:374-387). -/
def agentTextFrame (event : String) (payload : JRec) (agentId aiName : String)
    (st : ParseState) : ParseState :=
  let st := pushFrame event st
  if event = "discussion_response" ∧ agentId ≠ "" then
    let delivery := if asString (rget payload "delivery") "" = "private" then Delivery.priv else Delivery.pub
    let rawTargets := match rget payload "targets" with | JVal.arr xs => xs | _ => []
    let entry : ReplayDiscussion :=
      { tick := st.tick
        agent_id := agentId
        ai_name := jsOr aiName agentId
        message := parseAgentMessage (asString (rget payload "message") "")
        delivery := delivery
        targets := (rawTargets.map (fun x => asString x "")).filter (fun x => x.length > 0)
        frameIndex := st.frames.length - 1 }
    { st with discussions := st.discussions ++ [entry] }
  else st

/-- `agent_interaction` branch (legacyAdapter.ts:335-390). -/
def handleAgentInteraction (event : String) (payload : JRec) (st : ParseState) : ParseState :=
  let agentId := asString (rget payload "agent_id") ""
  let aiName := asString (rget payload "ai_name") ""
  let avatar := asString (rget payload "avatar") (alistGetD st.avatarById agentId "")
  let st := if agentId ≠ "" then ensurePlayer agentId aiName avatar st else st
  let positionMap := compactPlayerPositions payload
  let st := positionMap.foldl (fun st kv =>
    ensurePlayer kv.1 (alistGetD st.aiNameById kv.1 kv.1) (alistGetD st.avatarById kv.1 "") st) st
  if event = "discussion_response" ∨ event = "agent_response" ∨ event = "commentator_response" then
    let st := if agentId ≠ "" then agentTextUpdate event payload agentId aiName st else st
    agentTextFrame event payload agentId aiName st
  else st

/-- Retroactive spawn patch of an agent's snapshot in one frame: the source
mutates the first `find` hit (legacyAdapter.ts:413-419). -/
def patchFirst : List PlayerState → String → ℚ → ℚ → List PlayerState
  | [], _, _, _ => []
  | p :: t, agentId, pos, sign =>
    if p.player_id = agentId then ({ p with position := pos, facing := sign }) :: t
    else p :: patchFirst t agentId pos sign

/-- The registry-update part of the `player_moved` branch
(legacyAdapter.ts:396-437, the `if (player)` body). -/
def playerMovedCore (payload : JRec) (agentId : String) (st : ParseState) : ParseState :=
  match alistGet st.players agentId with
  | none => st
  | some player =>
    let declaredDirection := parseMoveDirection (rget payload "direction")
    let declaredSign := dirSign declaredDirection
    let intent := alistGet st.lastIntentByAgent agentId
    let steps := max 1 (asNumber (rget payload "steps") (match intent with | some i => i.steps | none => 1))
    let hasPosition := match rget payload "position" with | JVal.num _ => true | _ => false
    let movedTo :=
      if hasPosition then wrapTrack (asNumber (rget payload "position") player.position) st.trackLength
      else wrapTrack (player.position + declaredSign * steps) st.trackLength
    let spawnRes : ℚ × ParseState :=
      if agentId ∈ st.knownPositionByAgent then (player.position, st)
      else
        let inferredSpawn := wrapTrack (movedTo - declaredSign * steps) st.trackLength
        let st := { st with players := alistSet st.players agentId ({ player with position := inferredSpawn }) }
        let st :=
          if agentId ∈ st.inferredSpawnDone then st
          else
            let patchFrame := fun (fr : ReplayFrame) =>
              let ps2 := patchFirst fr.state.players agentId inferredSpawn declaredSign
              { fr with state := { fr.state with players := ps2 } }
            let st := { st with frames := st.frames.map patchFrame }
            { st with inferredSpawnDone := strSetAdd st.inferredSpawnDone agentId }
        (inferredSpawn, { st with knownPositionByAgent := strSetAdd st.knownPositionByAgent agentId })
    let basePos := spawnRes.1
    let st := spawnRes.2
    let resolvedDirection := inferDirectionByPosition basePos movedTo declaredDirection steps st.trackLength
    let st := setPlayer agentId (fun p =>
      { p with position := movedTo
               facing := if resolvedDirection = Dir.backward then -1 else 1
               vote_reverse := match rget payload "vote_reverse" with | JVal.bool b => some b | _ => none }) st
    let lives := asNumber (rget payload "lives") player.hp
    let st := backfillFallbackHp lives st
    setPlayer agentId (fun p => { p with hp := lives }) st

/-- The frame/action emission part of the `player_moved` branch
(legacyAdapter.ts:438-466), which runs whether or not the registry lookup
succeeded. -/
def playerMovedTail (payload : JRec) (agentId aiName : String) (st : ParseState) : ParseState :=
  let st := pushFrame "player_moved" st
  let frameIndex := st.frames.length - 1
  let intent := alistGet st.lastIntentByAgent agentId
  let discussionText := alistGetD st.discussionByTurnAgent (st.tick, agentId) ""
  let actionText := alistGetD st.actionByTurnAgent (st.tick, agentId) ""
  let prevState := if st.frames.length > 1 then (st.frames.get? (st.frames.length - 2)).map (fun f => f.state) else none
  let movedPlayer :=
    match st.frames.get? frameIndex with
    | some fr => fr.state.players.find? (fun (p : PlayerState) => decide (p.player_id = agentId))
    | none => none
  let prevPlayer :=
    match prevState with
    | some s => s.players.find? (fun (p : PlayerState) => decide (p.player_id = agentId))
    | none => none
  let fallbackDir := match intent with | some i => dirStr i.direction | none => "forward"
  let declared2 := parseMoveDirection (JVal.str (asString (rget payload "direction") fallbackDir))
  let steps2 := max 1 (asNumber (rget payload "steps") (match intent with | some i => i.steps | none => 1))
  let inferredDirection :=
    match movedPlayer, prevPlayer with
    | some mp, some pp =>
      inferDirectionByPosition pp.position mp.position declared2 steps2
        (match st.frames.get? frameIndex with | some fr => fr.state.track_length | none => st.trackLength)
    | _, _ => declared2
  let intentMsg := match intent with | some i => i.message | none => ""
  let intentAiName := match intent with | some i => i.ai_name | none => ""
  let playerMsg := match alistGet st.players agentId with | some p => p.message | none => ""
  let act : ReplayAction :=
    { tick := st.tick
      agent_id := agentId
      ai_name := jsOr aiName (jsOr intentAiName agentId)
      steps := steps2
      direction := inferredDirection
      message := jsOr actionText (jsOr discussionText (jsOr intentMsg playerMsg))
      discussion_message := discussionText
      action_message := jsOr actionText (jsOr intentMsg playerMsg)
      frameIndex := frameIndex }
  { st with actions := st.actions ++ [act] }

/-- `player_moved` branch (legacyAdapter.ts:392-468). -/
def handlePlayerMoved (payload : JRec) (st : ParseState) : ParseState :=
  let agentId := asString (rget payload "agent_id") ""
  let aiName := asString (rget payload "ai_name") agentId
  let st := ensurePlayer agentId aiName (asString (rget payload "avatar") (alistGetD st.avatarById agentId "")) st
  let st := playerMovedCore payload agentId st
  playerMovedTail payload agentId aiName st

/-- `player_hit` branch (legacyAdapter.ts:470-487). -/
def handlePlayerHit (payload : JRec) (st : ParseState) : ParseState :=
  let agentId := asString (rget payload "agent_id") ""
  let aiName := asString (rget payload "ai_name") agentId
  let st := ensurePlayer agentId aiName (asString (rget payload "avatar") (alistGetD st.avatarById agentId "")) st
  let st :=
    match alistGet st.players agentId with
    | none => st
    | some player =>
      let lives := asNumber (rget payload "lives") player.hp
      let st := backfillFallbackHp lives st
      let st := setPlayer agentId (fun p => { p with hp := lives }) st
      match rget payload "respawned_position" with
      | JVal.num r =>
        let st := setPlayer agentId (fun p => { p with position := wrapTrack r st.trackLength }) st
        { st with knownPositionByAgent := strSetAdd st.knownPositionByAgent agentId }
      | _ => st
  pushFrame "player_hit" st

/-- `truck_moved` branch (legacyAdapter.ts:489-495). -/
def handleTruckMoved (payload : JRec) (st : ParseState) : ParseState :=
  let t1 := { st.truck with position := wrapTrack (asNumber (rget payload "truck_position") st.truck.position) st.trackLength }
  let t2 := { t1 with direction := if 0 ≤ asNumber (rget payload "truck_direction") t1.direction then (1 : ℚ) else -1 }
  let t3 := { t2 with speed := max 1 (asNumber (rget payload "truck_rage") t2.speed) }
  pushFrame "truck_moved" { st with truck := t3 }

/-- `commentator_broadcast` branch (legacyAdapter.ts:497-513). -/
def handleCommentatorBroadcast (payload : JRec) (st : ParseState) : ParseState :=
  let agentId := asString (rget payload "agent_id") "commentator"
  let aiName := asString (rget payload "ai_name") (jsOr agentId "解说员")
  let avatar := asString (rget payload "avatar") (alistGetD st.avatarById agentId "")
  let st := ensurePlayer (jsOr agentId "commentator") aiName avatar st
  let message := parseAgentMessage (asString (rget payload "text") "")
  let st := setPlayer (jsOr agentId "commentator") (fun p => { p with message := message }) st
  let st := pushLog "commentary"
    [("player_id", JVal.str (jsOr agentId "commentator")), ("ai_name", JVal.str aiName),
     ("text", JVal.str message), ("source", JVal.str "structured")] st
  pushFrame "commentator_broadcast" st

/-- Split at the first `]`, returning the characters before it and after it. -/
def splitAtRBracket : List Char → Option (List Char × List Char)
  | [] => none
  | c :: t =>
    if c = ']' then some ([], t)
    else
      match splitAtRBracket t with
      | some (pre, post) => some (c :: pre, post)
      | none => none

/-- Line terminators excluded by a non-dotall `.`. -/
def isLineTerm (c : Char) : Bool :=
  c = '\n' || c = '\r' || c.val = 0x2028 || c.val = 0x2029

/-- Tail of the commentator broadcast pattern, `\s*([\s\S]+)$`: greedy
whitespace, then a nonempty capture to the end; if everything is whitespace
the engine backtracks one character. -/
def commTail (tail : List Char) : Option (List Char) :=
  match tail.dropWhile jsWs with
  | [] =>
    match tail.getLast? with
    | some c => some [c]
    | none => none
  | r => some r

/-- Tail of the discussion broadcast pattern, `\s*(.+)$`: like `commTail`
but the capture may not contain a line terminator. -/
def discussTail (tail : List Char) : Option (List Char) :=
  match tail.dropWhile jsWs with
  | [] =>
    match tail.getLast? with
    | some c => if isLineTerm c then none else some [c]
    | none => none
  | r => if r.any isLineTerm then none else some r

/-- Scan for the leftmost successful match of
`\[COMMENTATOR\]\[([^\]]+)\]\s*([\s\S]+)$` (legacyAdapter.ts:518); the
`(?:^\[[^\]]+\])*` prefix group never changes the captures. -/
def matchCommentatorGo : ℕ → List Char → Option (String × String)
  | 0, _ => none
  | _ + 1, [] => none
  | fuel + 1, c :: rest =>
    if "[COMMENTATOR][".data.isPrefixOf (c :: rest) then
      match splitAtRBracket ((c :: rest).drop 14) with
      | some (name, tail) =>
        if name = [] then matchCommentatorGo fuel rest
        else
          match commTail tail with
          | some msg => some (String.mk name, String.mk msg)
          | none => matchCommentatorGo fuel rest
      | none => matchCommentatorGo fuel rest
    else matchCommentatorGo fuel rest

/-- Wrapper for the commentator broadcast matcher. -/
def matchCommentator (s : String) : Option (String × String) :=
  matchCommentatorGo s.length s.data

/-- Scan for the leftmost successful match of
`\[DISCUSS\]\[([^\]]+)\]\s*(.+)$` (legacyAdapter.ts:531). -/
def matchDiscussGo : ℕ → List Char → Option (String × String)
  | 0, _ => none
  | _ + 1, [] => none
  | fuel + 1, c :: rest =>
    if "[DISCUSS][".data.isPrefixOf (c :: rest) then
      match splitAtRBracket ((c :: rest).drop 10) with
      | some (name, tail) =>
        if name = [] then matchDiscussGo fuel rest
        else
          match discussTail tail with
          | some msg => some (String.mk name, String.mk msg)
          | none => matchDiscussGo fuel rest
      | none => matchDiscussGo fuel rest
    else matchDiscussGo fuel rest

/-- Wrapper for the discussion broadcast matcher. -/
def matchDiscuss (s : String) : Option (String × String) :=
  matchDiscussGo s.length s.data

/-- `public_broadcast` branch (legacyAdapter.ts:515-548). -/
def handlePublicBroadcast (payload : JRec) (st : ParseState) : ParseState :=
  let text := asString (rget payload "text") ""
  let st :=
    if strIncludes text "[COMMENTATOR][" then
      match matchCommentator text with
      | some (aiName, raw) =>
        let agentId := alistGetD st.aiIdByName aiName "commentator"
        let st := ensurePlayer agentId aiName (alistGetD st.avatarById agentId "") st
        let message := parseAgentMessage raw
        let st := setPlayer agentId (fun p => { p with message := message }) st
        pushLog "commentary"
          [("player_id", JVal.str agentId), ("text", JVal.str message),
           ("source", JVal.str "broadcast")] st
      | none => pushLog "discussion" [("player_id", JVal.str "system"), ("text", JVal.str text)] st
    else if strIncludes text "[DISCUSS][" then
      match matchDiscuss text with
      | some (aiName, raw) =>
        let agentId := alistGetD st.aiIdByName aiName aiName
        let st := ensurePlayer agentId aiName (alistGetD st.avatarById agentId "") st
        let message := parseAgentMessage raw
        let st := setPlayer agentId (fun p => { p with message := message }) st
        pushLog "discussion" [("player_id", JVal.str agentId), ("text", JVal.str message)] st
      | none => pushLog "discussion" [("player_id", JVal.str "system"), ("text", JVal.str text)] st
    else pushLog "discussion" [("player_id", JVal.str "system"), ("text", JVal.str text)] st
  pushFrame "public_broadcast" st

/-- Event dispatch of the main loop (legacyAdapter.ts:321-552). -/
def dispatchEvent (event messageType : String) (payload : JRec) (st : ParseState) : ParseState :=
  if event = "game_started" then handleGameStarted payload st
  else if messageType = "agent_interaction" then handleAgentInteraction event payload st
  else if event = "player_moved" then handlePlayerMoved payload st
  else if event = "player_hit" then handlePlayerHit payload st
  else if event = "truck_moved" then handleTruckMoved payload st
  else if event = "commentator_broadcast" then handleCommentatorBroadcast payload st
  else if event = "public_broadcast" then handlePublicBroadcast payload st
  else if event = "turn_finished" ∨ event = "turn_started" then pushFrame event st
  else st

/-- One iteration of the main event loop (legacyAdapter.ts:311-553). -/
def processMessage (st : ParseState) (msg : JVal) : ParseState :=
  let m := asRecord msg
  let messageTurn := asNumber (rget m "turn") st.tick
  let st := { st with tick := max st.tick messageTurn }
  let event := asString (rget m "event") ""
  let payload := asRecord (rget m "payload")
  let messageType := asString (rget m "message_type") ""
  let st :=
    match compactTrackSize payload with
    | some t => if 0 < t then { st with trackLength := t } else st
    | none => st
  dispatchEvent event messageType payload st

/-- The `core_messages` list of an export envelope (legacyAdapter.ts:198). -/
def coreMessagesOf (input : JVal) : List JVal :=
  match rget (asRecord input) "core_messages" with
  | JVal.arr xs => xs
  | _ => []

/-- Initial closure state, after the `agent_metadata` seeding loop and the
first `ensureCommentatorExists` call (legacyAdapter.ts:203-296). -/
def initState (input : JVal) : ParseState :=
  let base : ParseState :=
    { players := []
      aiNameById := []
      aiIdByName := []
      avatarById := []
      logs := []
      frames := []
      actions := []
      discussions := []
      lastIntentByAgent := []
      discussionByTurnAgent := []
      actionByTurnAgent := []
      knownPositionByAgent := []
      inferredSpawnDone := []
      tick := 0
      trackLength := FALLBACK_TRACK
      maxHpSeen := FALLBACK_HP
      seq := 0
      truck := { position := 0, direction := 1, speed := 1, can_multi_hit := false }
      maxHpAtPush := [] }
  let metas := match rget (asRecord input) "agent_metadata" with | JVal.arr xs => xs | _ => []
  let st := metas.foldl (fun st item =>
    let row := asRecord item
    let agentId := asString (rget row "agent_id") ""
    if agentId = "" then st
    else ensurePlayer agentId (asString (rget row "ai_name") agentId) (asString (rget row "avatar") "") st) base
  ensureCommentatorExists st

/-- Fold of the main event loop. -/
def processAll (msgs : List JVal) (st : ParseState) : ParseState :=
  msgs.foldl processMessage st

/-- Post-loop cleanup (legacyAdapter.ts:555-558): clamp the live registry's
HP and re-guarantee a commentator. Neither step can alter the already
cloned frames. -/
def finalize (st : ParseState) : ParseState :=
  let st := { st with players := st.players.map (fun kp =>
    (kp.1, { kp.2 with hp := max 0 (min st.maxHpSeen kp.2.hp) })) }
  ensureCommentatorExists st

/-- `actionByFrame` map (legacyAdapter.ts:563-564). -/
def actionByFrame (actions : List ReplayAction) : List (ℕ × ReplayAction) :=
  actions.foldl (fun m a => alistSet m a.frameIndex a) []

/-- `new Map(players.map(p => [p.player_id, p]))` (legacyAdapter.ts:569). -/
def playersById (ps : List PlayerState) : List (String × PlayerState) :=
  ps.foldl (fun m p => alistSet m p.player_id p) []

/-- Per-player body of the repair loop (legacyAdapter.ts:571-594). -/
def repairPlayer (prevById : List (String × PlayerState)) (currLabel : String) (track : ℚ)
    (mAct : Option ReplayAction) (p : PlayerState) : PlayerState :=
  match alistGet prevById p.player_id with
  | none => p
  | some prevPlayer =>
    if currLabel = "player_hit" ∧ p.hp < prevPlayer.hp then p
    else
      match mAct with
      | some act =>
        if act.agent_id = p.player_id then
          let expected := wrapTrack (prevPlayer.position + dirSign act.direction * max 1 act.steps) track
          let jump := circularDistance prevPlayer.position p.position track
          if jump = 0 ∨ jump > max 2 (act.steps + 2) then { p with position := expected } else p
        else
          let jump := circularDistance prevPlayer.position p.position track
          if jump > 2 then { p with position := prevPlayer.position } else p
      | none =>
        let jump := circularDistance prevPlayer.position p.position track
        if jump > 2 then { p with position := prevPlayer.position } else p

/-- One frame transition of the repair pass: repair `curr` against the
(already repaired) `prev`. -/
def repairStep (prev curr : ReplayFrame) (mAct : Option ReplayAction) : ReplayFrame :=
  let prevById := playersById prev.state.players
  let ps2 := curr.state.players.map (repairPlayer prevById curr.label curr.state.track_length mAct)
  { curr with state := { curr.state with players := ps2 } }

/-- The sequential walk of the repair pass (legacyAdapter.ts:566-595); the
repaired frame becomes the predecessor of the next transition. -/
def repairGo (abf : List (ℕ × ReplayAction)) : ReplayFrame → List ReplayFrame → ℕ → List ReplayFrame
  | _, [], _ => []
  | prev, curr :: tail, i =>
    let curr2 := repairStep prev curr (alistGet abf i)
    curr2 :: repairGo abf curr2 tail (i + 1)

/-- The whole trajectory repair pass. -/
def repairFrames (frames : List ReplayFrame) (abf : List (ℕ × ReplayAction)) : List ReplayFrame :=
  match frames with
  | [] => []
  | f :: rest => f :: repairGo abf f rest 1

/-- Final closure state after the event loop and cleanup (the frames it
holds are the pre-repair ones). -/
def parseFinalState (input : JVal) : ParseState :=
  finalize (processAll (coreMessagesOf input) (initState input))

/-- Model of `parseLegacyExport` (legacyAdapter.ts:196-598). -/
def parseLegacyExport (input : JVal) : ReplayTimeline :=
  let msgs := coreMessagesOf input
  if msgs.isEmpty then { frames := [], actions := [], discussions := [] }
  else
    let st := parseFinalState input
    { frames := repairFrames st.frames (actionByFrame st.actions)
      actions := st.actions
      discussions := st.discussions }

/-! ### Move-phase target selection (App.tsx:688-696)

On entering the move phase the pipeline clamps the action's `frameIndex`
with `Math.min(frameIndex, replayFrames.length - 1)` and looks the frame
up; only when the lookup yields nothing does it skip interpolation,
advance the action index and return to idle. -/

/-- Outcome of the move-phase target selection. -/
inductive MovePhaseStep where
  | skipAdvanceIdle : MovePhaseStep
  | interpolateTo (targetIndex : ℤ) : MovePhaseStep
deriving DecidableEq

/-- JS array indexing with a possibly negative index (`frames[i]`). -/
def jsListGet {α : Type} (l : List α) (i : ℤ) : Option α :=
  if i < 0 then none else l.get? i.toNat

/-- Model of the move-phase target selection (App.tsx:688-696):
`skipAdvanceIdle` stands for `setActionIndex(idx+1); setActionPhase('idle');
setActiveAction(null); return`, and `interpolateTo t` for interpolating the
acting agent toward `replayFrames[t].state`. -/
def movePhaseTarget (replayFrames : List ReplayFrame) (frameIndex : ℤ) : MovePhaseStep :=
  let targetIndex : ℤ := min frameIndex ((replayFrames.length : ℤ) - 1)
  match jsListGet replayFrames targetIndex with
  | none => MovePhaseStep.skipAdvanceIdle
  | some _ => MovePhaseStep.interpolateTo targetIndex

/-! ### Support definitions for the claim statements -/

/-- The track-size hint carried by one raw message. -/
def trackHintOf (m : JVal) : Option ℚ :=
  compactTrackSize (asRecord (rget (asRecord m) "payload"))

/-- The selection rule of the specification for direction inference, stated
from its words: the interpretation whose circular delta matches the declared
step count exactly (zero error) is chosen when the other does not also
match; otherwise the interpretation with the smaller absolute error; on a
tie the declared direction is kept. -/
def inferDirectionClaim (fromPos toPos : ℚ) (declared : Dir) (steps trackLength : ℚ) : Dir :=
  let track := max 1 trackLength
  let fwd := jsRem (wrapTrack toPos track - wrapTrack fromPos track + track) track
  let bwd := jsRem (wrapTrack fromPos track - wrapTrack toPos track + track) track
  let errF := |fwd - steps|
  let errB := |bwd - steps|
  if errF = 0 ∧ errB ≠ 0 then Dir.forward
  else if errB = 0 ∧ errF ≠ 0 then Dir.backward
  else if errF < errB then Dir.forward
  else if errB < errF then Dir.backward
  else declared

/-- An inert game state, used as a `getD` default. -/
def dummyGameState : GameState :=
  { tick := 0, track_length := FALLBACK_TRACK, players := [],
    truck := { position := 0, direction := 1, speed := 1, can_multi_hit := false },
    items := [], logs := [] }

/-- An inert frame, used as a `getD` default. -/
def dummyFrame : ReplayFrame := { state := dummyGameState, label := "game_started" }

/-- An inert snapshot player, used as a `getD` default. -/
def dummyPlayerState : PlayerState :=
  { player_id := "", name := "", avatar := none, position := 0, facing := 1,
    vote_reverse := none, hp := 0, inventory := [], message := "" }

/-- Builds one legacy message envelope entry. -/
def mkMsg (turn : ℚ) (event : String) (payload : List (String × JVal)) : JVal :=
  JVal.obj [("turn", JVal.num turn), ("event", JVal.str event), ("payload", JVal.obj payload)]

/-- Does the message's payload carry a nonnegative value whenever it carries
a numeric `lives` field? -/
def livesOkB (m : JVal) : Bool :=
  match rget (asRecord (rget (asRecord m) "payload")) "lives" with
  | JVal.num q => decide (0 ≤ q)
  | _ => true

/-- All `lives` fields of the export are nonnegative when numeric. -/
def LivesOk (input : JVal) : Prop :=
  ∀ m ∈ coreMessagesOf input, livesOkB m = true

/-- Labels of the frames held by the closure state. -/
def labelsOf (st : ParseState) : List String :=
  st.frames.map (fun f => f.label)

/-- Labels of a frame list. -/
def frameLabels (fs : List ReplayFrame) : List String :=
  fs.map (fun f => f.label)

/-- HP values of one frame's players. -/
def frameHps (fr : ReplayFrame) : List ℚ :=
  fr.state.players.map (fun p => p.hp)

/-- The running invariant of the reconstruction loop used for the HP bound:
a positive ceiling, registry and frame HP inside `[0, maxHpSeen]`, and a
monotone instrumentation trace dominated by the current ceiling. -/
def HpInv (st : ParseState) : Prop :=
  0 < st.maxHpSeen ∧
  (∀ kp ∈ st.players, 0 ≤ (kp : String × MutablePlayer).2.hp ∧ kp.2.hp ≤ st.maxHpSeen) ∧
  (∀ fr ∈ st.frames, ∀ p ∈ (fr : ReplayFrame).state.players, 0 ≤ p.hp ∧ p.hp ≤ st.maxHpSeen) ∧
  List.Chain' (· ≤ ·) st.maxHpAtPush ∧
  (∀ c ∈ st.maxHpAtPush, c ≤ st.maxHpSeen)

/-- The action/frame cross-reference invariant: every recorded action points
below the end of the frame list at a frame labelled `player_moved`, and the
pointers strictly increase. -/
def ActInvOn (actions : List ReplayAction) (labels : List String) : Prop :=
  (∀ a ∈ actions, a.frameIndex < labels.length ∧ labels.getD a.frameIndex "" = "player_moved") ∧
  List.Pairwise (· < ·) (actions.map ReplayAction.frameIndex)

/-- The invariant instantiated at a closure state. -/
def ActInv (st : ParseState) : Prop :=
  ActInvOn st.actions (labelsOf st)

/-- The claim's per-export HP-bound statement, decidably: every player of
every frame has `0 ≤ hp` and `hp` at most the ceiling recorded when that
frame was pushed, and the recorded ceilings never decrease. -/
def hpBoundClaimB (input : JVal) : Bool :=
  let t := parseLegacyExport input
  let tr := (parseFinalState input).maxHpAtPush
  ((t.frames.zip tr).all fun p => p.1.state.players.all fun q =>
    decide (0 ≤ q.hp) && decide (q.hp ≤ p.2)) &&
  decide (List.Chain' (· ≤ ·) tr)

/-- Counterexample export for the HP-bound claim: a first move establishes
placeholder HP 3, a later move reveals max HP 5 (retroactively rewriting
frame 0 above the ceiling recorded there), and a final move carries
`lives = -1`. -/
def c1Input : JVal := JVal.obj [("core_messages", JVal.arr [
  mkMsg 1 "player_moved" [("agent_id", JVal.str "a1")],
  mkMsg 2 "player_moved" [("agent_id", JVal.str "a1"), ("lives", JVal.num 5)],
  mkMsg 3 "player_moved" [("agent_id", JVal.str "a1"), ("lives", JVal.num (-1))]])]

/-- Well-formed one-move export used by the HP-bound witness. -/
def c1WitnessInput : JVal := JVal.obj [("core_messages", JVal.arr [
  mkMsg 1 "player_moved" [("agent_id", JVal.str "a1"), ("lives", JVal.num 5)]])]

/-- Counterexample export for the track-length claim: two frames whose
track-size hints are 30 then 10. -/
def c6Input : JVal := JVal.obj [("core_messages", JVal.arr [
  mkMsg 1 "turn_started" [("request", JVal.obj [("ps", JVal.obj [("ts", JVal.num 30)])])],
  mkMsg 2 "turn_started" [("request", JVal.obj [("ps", JVal.obj [("ts", JVal.num 10)])])]])]

/-- Does the string carry no tool-call content (no case-insensitive
`tool_calls` occurrence, the token all tool-call detection of
`parseAgentMessage` keys on)? -/
def noToolCallContentB (s : String) : Bool :=
  !(listContainsSub (jsLower s).data "tool_calls".data)

/-- Does the string contain a triple-backtick fence opener anywhere? -/
def hasTripleFenceB (s : String) : Bool :=
  listContainsSub (jsLower s).data "```".data

/-- Concrete sanitize counterexample input: ordinary fenced code, no
tool-call content. -/
def c7Input : String := "a ```b``` c"

/-- Player of the earlier frame used by the repair-pass witness. -/
def c3PrevPlayer : PlayerState :=
  { dummyPlayerState with player_id := "a1", position := 0, hp := 3 }

/-- Player of the later frame used by the repair-pass witness. -/
def c3CurrPlayer : PlayerState :=
  { dummyPlayerState with player_id := "a1", position := 10, hp := 3 }

/-- Earlier frame used by the repair-pass witness. -/
def c3PrevFrame : ReplayFrame :=
  { state := { dummyGameState with players := [c3PrevPlayer] }, label := "turn_started" }

/-- Later frame of the repair-pass witness: the same player jumped 10 cells
with no action and no `player_hit` label. -/
def c3CurrFrame : ReplayFrame :=
  { state := { dummyGameState with players := [c3CurrPlayer] }, label := "truck_moved" }

/-- Frame used by the placeholder-HP-upgrade witness: a placeholder-HP
player next to a damaged player. -/
def c4Frame : ReplayFrame :=
  { state := { dummyGameState with players :=
      [{ dummyPlayerState with player_id := "a1", hp := 3 },
       { dummyPlayerState with player_id := "a2", hp := 2 }] }
    label := "player_moved" }

/-- Closure state used by the placeholder-HP-upgrade witness: ceiling 3, one
frame with a placeholder-HP player and a damaged player. -/
def c4State : ParseState :=
  { players := []
    aiNameById := []
    aiIdByName := []
    avatarById := []
    logs := []
    frames := [c4Frame]
    actions := []
    discussions := []
    lastIntentByAgent := []
    discussionByTurnAgent := []
    actionByTurnAgent := []
    knownPositionByAgent := []
    inferredSpawnDone := []
    tick := 0
    trackLength := FALLBACK_TRACK
    maxHpSeen := FALLBACK_HP
    seq := 0
    truck := { position := 0, direction := 1, speed := 1, can_multi_hit := false }
    maxHpAtPush := [3] }

/-! ### General lemmas about the association-list primitives -/

theorem alistSet_mem {K V : Type} [DecidableEq K] :
    ∀ (m : List (K × V)) (k : K) (v : V), ∀ kp ∈ alistSet m k v, kp = (k, v) ∨ kp ∈ m := by
  intro m
  induction m with
  | nil => intro k v kp h; simp [alistSet] at h; simp [h]
  | cons hd tl ih =>
    intro k v kp h
    obtain ⟨k', v'⟩ := hd
    simp only [alistSet] at h
    by_cases hk : k' = k
    · rw [if_pos hk] at h
      subst hk
      rcases List.mem_cons.mp h with h | h
      · exact Or.inl h
      · exact Or.inr (List.mem_cons_of_mem _ h)
    · rw [if_neg hk] at h
      rcases List.mem_cons.mp h with h | h
      · exact Or.inr (by simp [h])
      · rcases ih k v kp h with h' | h'
        · exact Or.inl h'
        · exact Or.inr (List.mem_cons_of_mem _ h')

theorem alistGet_mem {K V : Type} [DecidableEq K] :
    ∀ (m : List (K × V)) (k : K) (v : V), alistGet m k = some v → (k, v) ∈ m := by
  intro m
  induction m with
  | nil => intro k v h; simp [alistGet] at h
  | cons hd tl ih =>
    intro k v h
    obtain ⟨k', v'⟩ := hd
    simp only [alistGet] at h
    by_cases hk : k' = k
    · rw [if_pos hk] at h
      injection h with h2
      subst hk
      subst h2
      exact List.mem_cons_self _ _
    · rw [if_neg hk] at h
      exact List.mem_cons_of_mem _ (ih k v h)

/-- Projection invariance through a fold. -/
theorem foldl_preserves {α β γ : Type} (f : β → α → β) (g : β → γ)
    (h : ∀ b a, g (f b a) = g b) : ∀ (l : List α) (b : β), g (l.foldl f b) = g b := by
  intro l
  induction l with
  | nil => intro b; rfl
  | cons hd tl ih => intro b; rw [List.foldl_cons, ih, h]

/-! ### Track-length preservation: no operation after the hint update at the
top of the event loop (legacyAdapter.ts:318-319) ever writes `trackLength`. -/

theorem ensurePlayerBase_trackLength (a n v : String) (st : ParseState) :
    (ensurePlayerBase a n v st).trackLength = st.trackLength := by
  unfold ensurePlayerBase; dsimp only; repeat' split
  all_goals rfl

theorem ensurePlayerAvatar_trackLength (a v : String) (st : ParseState) :
    (ensurePlayerAvatar a v st).trackLength = st.trackLength := by
  unfold ensurePlayerAvatar; dsimp only; repeat' split
  all_goals rfl

theorem ensurePlayerNames_trackLength (a n : String) (st : ParseState) :
    (ensurePlayerNames a n st).trackLength = st.trackLength := by
  unfold ensurePlayerNames; repeat' split
  all_goals rfl

theorem ensurePlayer_trackLength (a n v : String) (st : ParseState) :
    (ensurePlayer a n v st).trackLength = st.trackLength := by
  unfold ensurePlayer
  rw [ensurePlayerNames_trackLength, ensurePlayerAvatar_trackLength, ensurePlayerBase_trackLength]

theorem setPlayer_trackLength (a : String) (f : MutablePlayer → MutablePlayer) (st : ParseState) :
    (setPlayer a f st).trackLength = st.trackLength := by
  unfold setPlayer; repeat' split
  all_goals rfl

theorem pushLog_trackLength (k : String) (p : JRec) (st : ParseState) :
    (pushLog k p st).trackLength = st.trackLength := rfl

theorem pushFrame_trackLength (l : String) (st : ParseState) :
    (pushFrame l st).trackLength = st.trackLength := rfl

theorem backfill_trackLength (q : ℚ) (st : ParseState) :
    (backfillFallbackHp q st).trackLength = st.trackLength := by
  unfold backfillFallbackHp; repeat' split
  all_goals rfl

theorem ensureCommentator_trackLength (st : ParseState) :
    (ensureCommentatorExists st).trackLength = st.trackLength := by
  unfold ensureCommentatorExists; dsimp only; repeat' split
  all_goals (try simp only [ensurePlayer_trackLength])
  all_goals rfl

theorem agentTextUpdate_trackLength (e : String) (p : JRec) (a n : String) (st : ParseState) :
    (agentTextUpdate e p a n st).trackLength = st.trackLength := by
  unfold agentTextUpdate; dsimp only; repeat' split
  all_goals (try simp only [pushLog_trackLength])
  all_goals rfl

theorem agentTextFrame_trackLength (e : String) (p : JRec) (a n : String) (st : ParseState) :
    (agentTextFrame e p a n st).trackLength = st.trackLength := by
  unfold agentTextFrame; dsimp only; repeat' split
  all_goals (try simp only [pushFrame_trackLength])
  all_goals rfl

theorem handleAgentInteraction_trackLength (e : String) (p : JRec) (st : ParseState) :
    (handleAgentInteraction e p st).trackLength = st.trackLength := by
  unfold handleAgentInteraction; dsimp only; repeat' split
  all_goals (try simp only [agentTextUpdate_trackLength, agentTextFrame_trackLength])
  all_goals (try rw [foldl_preserves _ ParseState.trackLength (fun b a => ensurePlayer_trackLength _ _ _ b)])
  all_goals (try rw [ensurePlayer_trackLength])
  all_goals rfl

theorem handleGameStarted_trackLength (p : JRec) (st : ParseState) :
    (handleGameStarted p st).trackLength = st.trackLength := by
  unfold handleGameStarted; dsimp only
  rw [pushFrame_trackLength]
  rw [foldl_preserves _ ParseState.trackLength (fun b a => ensurePlayer_trackLength _ _ _ b)]

theorem playerMovedCore_trackLength (p : JRec) (a : String) (st : ParseState) :
    (playerMovedCore p a st).trackLength = st.trackLength := by
  unfold playerMovedCore; dsimp only; repeat' split
  all_goals (try simp only [setPlayer_trackLength, backfill_trackLength])
  all_goals rfl

theorem playerMovedTail_trackLength (p : JRec) (a n : String) (st : ParseState) :
    (playerMovedTail p a n st).trackLength = st.trackLength := by
  unfold playerMovedTail; dsimp only
  rw [pushFrame_trackLength]

theorem handlePlayerMoved_trackLength (p : JRec) (st : ParseState) :
    (handlePlayerMoved p st).trackLength = st.trackLength := by
  unfold handlePlayerMoved; dsimp only
  rw [playerMovedTail_trackLength, playerMovedCore_trackLength, ensurePlayer_trackLength]

theorem handlePlayerHit_trackLength (p : JRec) (st : ParseState) :
    (handlePlayerHit p st).trackLength = st.trackLength := by
  unfold handlePlayerHit; dsimp only; repeat' split
  all_goals (try simp only [pushFrame_trackLength, setPlayer_trackLength, backfill_trackLength,
    ensurePlayer_trackLength])
  all_goals rfl

theorem handleTruckMoved_trackLength (p : JRec) (st : ParseState) :
    (handleTruckMoved p st).trackLength = st.trackLength := rfl

theorem handleCommentatorBroadcast_trackLength (p : JRec) (st : ParseState) :
    (handleCommentatorBroadcast p st).trackLength = st.trackLength := by
  unfold handleCommentatorBroadcast; dsimp only
  rw [pushFrame_trackLength, pushLog_trackLength, setPlayer_trackLength, ensurePlayer_trackLength]

theorem handlePublicBroadcast_trackLength (p : JRec) (st : ParseState) :
    (handlePublicBroadcast p st).trackLength = st.trackLength := by
  unfold handlePublicBroadcast; dsimp only; repeat' split
  all_goals (try simp only [pushFrame_trackLength, pushLog_trackLength, setPlayer_trackLength,
    ensurePlayer_trackLength])
  all_goals rfl

theorem dispatchEvent_trackLength (e mt : String) (p : JRec) (st : ParseState) :
    (dispatchEvent e mt p st).trackLength = st.trackLength := by
  unfold dispatchEvent; repeat' split
  all_goals (try simp only [handleGameStarted_trackLength, handleAgentInteraction_trackLength,
    handlePlayerMoved_trackLength, handlePlayerHit_trackLength, handleTruckMoved_trackLength,
    handleCommentatorBroadcast_trackLength, handlePublicBroadcast_trackLength, pushFrame_trackLength])
  all_goals rfl

theorem getD_map_of_lt {α β : Type} (f : α → β) (l : List α) (i : ℕ) (d : α) (d' : β)
    (h : i < l.length) : (l.map f).getD i d' = f (l.getD i d) := by
  rw [List.getD_eq_get _ _ (show i < (l.map f).length by simpa), List.getD_eq_get _ _ h,
    List.get_map]

theorem repairPlayer_revert (prevById : List (String × PlayerState)) (lab : String) (track : ℚ)
    (mAct : Option ReplayAction) (p q : PlayerState)
    (hq : alistGet prevById p.player_id = some q)
    (hlab : lab ≠ "player_hit")
    (hact : ∀ act, mAct = some act → act.agent_id ≠ p.player_id)
    (hjump : 2 < circularDistance q.position p.position track) :
    repairPlayer prevById lab track mAct p = { p with position := q.position } := by
  unfold repairPlayer
  rw [hq]
  dsimp only
  rw [if_neg (show ¬(lab = "player_hit" ∧ p.hp < q.hp) from fun hc => hlab hc.1)]
  cases mAct with
  | none =>
    dsimp only
    rw [if_pos hjump]
  | some act =>
    dsimp only
    rw [if_neg (hact act rfl)]
    rw [if_pos hjump]

theorem repairGo_getD (abf : List (ℕ × ReplayAction)) :
    ∀ (rest : List ReplayFrame) (prev : ReplayFrame) (i0 j : ℕ), j < rest.length →
      (repairGo abf prev rest i0).getD j dummyFrame =
        repairStep
          (if j = 0 then prev else (repairGo abf prev rest i0).getD (j - 1) dummyFrame)
          (rest.getD j dummyFrame) (alistGet abf (i0 + j)) := by
  intro rest
  induction rest with
  | nil => intro prev i0 j hj; simp at hj
  | cons curr tail ih =>
    intro prev i0 j hj
    cases j with
    | zero =>
      simp [repairGo]
    | succ k =>
      have hk : k < tail.length := by simpa using hj
      have hgo := ih (repairStep prev curr (alistGet abf i0)) (i0 + 1) k hk
      unfold repairGo
      dsimp only
      rw [List.getD_cons_succ]
      rw [hgo]
      cases k with
      | zero =>
        simp [repairGo]
      | succ m =>
        have harith : i0 + 1 + (m + 1) = i0 + (m + 1 + 1) := by omega
        simp only [Nat.succ_sub_one, List.getD_cons_succ, harith]
        rfl

theorem repairFrames_consecutive (fs : List ReplayFrame) (abf : List (ℕ × ReplayAction)) (i : ℕ)
    (h : i + 1 < fs.length) :
    (repairFrames fs abf).getD (i + 1) dummyFrame =
      repairStep ((repairFrames fs abf).getD i dummyFrame) (fs.getD (i + 1) dummyFrame)
        (alistGet abf (i + 1)) := by
  cases fs with
  | nil => simp at h
  | cons f rest =>
    have hi : i < rest.length := by simpa using h
    unfold repairFrames
    rw [List.getD_cons_succ, List.getD_cons_succ]
    rw [repairGo_getD abf rest f 1 i hi]
    cases i with
    | zero => simp
    | succ m =>
      have harith : 1 + (m + 1) = m + 1 + 1 := by omega
      simp only [harith, Nat.succ_sub_one, List.getD_cons_succ, Nat.succ_ne_zero, if_false]

/-! ### Claim theorems -/

/-- C2: `inferDirectionByPosition` resolves the direction exactly as the
specification describes — an interpretation whose circular delta equals the
declared step count wins, otherwise the smaller absolute error wins, and a
tie keeps the declared direction — and on the concrete instance of a move
from 5 to 8 on a track of length 20 with steps = 3 the result is `forward`
for both declared directions. -/
theorem inferDirection_matches_spec :
    (∀ (fromPos toPos : ℚ) (declared : Dir) (steps trackLength : ℚ),
      inferDirectionByPosition fromPos toPos declared steps trackLength =
        inferDirectionClaim fromPos toPos declared steps trackLength)
    ∧ inferDirectionByPosition 5 8 Dir.forward 3 20 = Dir.forward
    ∧ inferDirectionByPosition 5 8 Dir.backward 3 20 = Dir.forward := by
  refine ⟨?_, by decide, by decide⟩
  intro f t d s tl
  simp only [inferDirectionByPosition, inferDirectionClaim, ne_eq, abs_eq_zero, sub_eq_zero]

/-- C8: with the default multiplier, the un-speed-scaled dialogue hold
duration is exactly `clamp(1400 + 36 * length, 2200, 9000)` — the pacing
constants 1.25 and 0.8 cancel. -/
theorem speechDuration_clamp_exact (m : String) :
    speechDurationMs m 1 = min 9000 (max 2200 (1400 + (jsStrLength16 m : ℚ) * 36)) := by
  unfold speechDurationMs DIALOGUE_TIME_SCALE SPEECH_TIME_COMPENSATION
  rw [max_self, max_min_distrib_left]
  norm_num
  ring

/-- C9: an export with no recognizable event list (a missing, non-list or
empty `core_messages`) parses to the all-empty timeline. -/
theorem empty_export_empty_timeline (input : JVal) (h : coreMessagesOf input = []) :
    parseLegacyExport input = { frames := [], actions := [], discussions := [] } := by
  simp [parseLegacyExport, h]

/-- Witness for C9 at the concrete input `null`. -/
theorem empty_export_empty_timeline_witness :
    parseLegacyExport JVal.null = { frames := [], actions := [], discussions := [] } :=
  empty_export_empty_timeline JVal.null (by rfl)

/-- C5 counterexample: with a non-empty frame list and a `frameIndex` past
its end the move phase does not skip — the claim's skip-on-out-of-range
behaviour is falsified at frames = [dummyFrame], frameIndex = 5. -/
theorem movePhase_skip_claim_counterexample :
    ¬ (((([dummyFrame] : List ReplayFrame).length : ℤ) ≤ 5) →
        movePhaseTarget [dummyFrame] 5 = MovePhaseStep.skipAdvanceIdle) := by
  decide

/-- C5 (amended): the move phase skips interpolation and advances the action
index exactly when the clamped target index is invalid — the frame list is
empty or the frameIndex is negative; a frameIndex at or past the end of a
non-empty list is clamped to the last frame, which is interpolated toward. -/
theorem movePhase_skip_characterization :
    ∀ (frames : List ReplayFrame) (fi : ℤ),
      (movePhaseTarget frames fi = MovePhaseStep.skipAdvanceIdle ↔ frames = [] ∨ fi < 0)
      ∧ (frames ≠ [] → (frames.length : ℤ) ≤ fi →
          movePhaseTarget frames fi = MovePhaseStep.interpolateTo ((frames.length : ℤ) - 1)) := by
  intro frames fi
  unfold movePhaseTarget jsListGet
  dsimp only
  rcases frames with _ | ⟨f, rest⟩
  · have hneg : min fi (((List.length ([] : List ReplayFrame)) : ℤ) - 1) < 0 := by
      simp only [List.length_nil]
      omega
    constructor
    · simp [hneg]
    · intro hne
      exact absurd rfl hne
  · have hlen : (0 : ℤ) < ((f :: rest).length : ℤ) := by
      simp only [List.length_cons]
      omega
    by_cases hfi : fi < 0
    · have hneg : min fi (((f :: rest).length : ℤ) - 1) < 0 := by omega
      constructor
      · simp [hneg, hfi]
      · intro _ hle
        exfalso
        omega
    · push_neg at hfi
      have hpos : ¬ (min fi (((f :: rest).length : ℤ) - 1) < 0) := by omega
      have hlt : (min fi (((f :: rest).length : ℤ) - 1)).toNat < (f :: rest).length := by omega
      have hx := List.get?_eq_get hlt
      constructor
      · rw [if_neg hpos, hx]
        simp [hfi]
      · intro _ hle
        have hmin : min fi (((f :: rest).length : ℤ) - 1) = ((f :: rest).length : ℤ) - 1 := by omega
        rw [if_neg hpos, hx]
        simp only [hmin]

/-- Witness for the amended C5: the skip branch at the empty frame list and
the clamp branch at one frame with frameIndex 5, via the theorem itself. -/
theorem movePhase_skip_characterization_witness :
    movePhaseTarget ([] : List ReplayFrame) 0 = MovePhaseStep.skipAdvanceIdle ∧
    movePhaseTarget [dummyFrame] 5 = MovePhaseStep.interpolateTo 0 :=
  ⟨(movePhase_skip_characterization [] 0).1.mpr (Or.inl rfl),
   (movePhase_skip_characterization [dummyFrame] 5).2 (List.cons_ne_nil _ _) (by decide)⟩

/-- C6 counterexample: a later positive track-size hint smaller than an
earlier one is adopted, so the recorded `track_length` decreases across the
frames of `c6Input` (whose first message already carries a positive hint). -/
theorem trackLength_monotonicity_counterexample :
    ((parseLegacyExport c6Input).frames.map (fun f => f.state.track_length) = [30, 10]) ∧
    ¬ List.Chain' (· ≤ ·) ((parseLegacyExport c6Input).frames.map (fun f => f.state.track_length)) := by
  constructor
  · rfl
  · intro h
    have h2 : (parseLegacyExport c6Input).frames.map (fun f => f.state.track_length) = [30, 10] := rfl
    rw [h2] at h
    have := (List.chain'_cons.mp h).1
    norm_num at this

/-- C6 (amended): each processed message installs its positive track-size
hint as the current authoritative track length — replacing the previous
value in either direction — and leaves it unchanged otherwise. -/
theorem trackLength_follows_latest_hint (st : ParseState) (m : JVal) :
    (processMessage st m).trackLength =
      (match trackHintOf m with
       | some t => if 0 < t then t else st.trackLength
       | none => st.trackLength) := by
  unfold processMessage trackHintOf; dsimp only
  rw [dispatchEvent_trackLength]
  repeat' split
  all_goals rfl

/-- C3: across the repair pass's consecutive-frame transitions — each later
frame is repaired against the already repaired earlier frame — any player
who is not the acting agent of that transition, whose circular jump from the
earlier frame exceeds 2 cells, and whose later frame is not labelled
`player_hit`, has its position reverted to the earlier frame's value. -/
theorem repair_reverts_nonacting_jump :
    (∀ (prev curr : ReplayFrame) (mAct : Option ReplayAction) (i : ℕ),
      i < curr.state.players.length →
      ∀ q : PlayerState,
        alistGet (playersById prev.state.players)
          ((curr.state.players.getD i dummyPlayerState).player_id) = some q →
        curr.label ≠ "player_hit" →
        (∀ act, mAct = some act → act.agent_id ≠ (curr.state.players.getD i dummyPlayerState).player_id) →
        2 < circularDistance q.position (curr.state.players.getD i dummyPlayerState).position
              curr.state.track_length →
        ((repairStep prev curr mAct).state.players.getD i dummyPlayerState).position = q.position)
    ∧ (∀ (fs : List ReplayFrame) (abf : List (ℕ × ReplayAction)) (i : ℕ), i + 1 < fs.length →
        (repairFrames fs abf).getD (i + 1) dummyFrame =
          repairStep ((repairFrames fs abf).getD i dummyFrame) (fs.getD (i + 1) dummyFrame)
            (alistGet abf (i + 1))) := by
  constructor
  · intro prev curr mAct i hi q hq hlab hact hjump
    unfold repairStep
    dsimp only
    rw [getD_map_of_lt _ _ _ dummyPlayerState _ hi]
    rw [repairPlayer_revert _ _ _ _ _ _ hq hlab hact hjump]
  · exact repairFrames_consecutive

/-- Witness for C3: a non-acting player 10 cells away from its previous
position in a non-`player_hit` frame is reverted to the previous position. -/
theorem repair_reverts_nonacting_jump_witness :
    ((repairStep c3PrevFrame c3CurrFrame none).state.players.getD 0 dummyPlayerState).position =
      c3PrevPlayer.position :=
  repair_reverts_nonacting_jump.1 c3PrevFrame c3CurrFrame none 0 (by decide) c3PrevPlayer
    (by decide) (by decide) (fun act hc => Option.noConfusion hc) (by decide)

/-- C4: when a strictly larger HP ceiling is observed, `backfillFallbackHp`
rewrites exactly the players of previously emitted frames whose HP equals
the placeholder `FALLBACK_HP` to the new ceiling and leaves every other HP
value (real damage history) unchanged. -/
theorem backfill_placeholder_upgrade (st : ParseState) (next : ℚ) (h : st.maxHpSeen < next) :
    (backfillFallbackHp next st).frames.length = st.frames.length ∧
    ∀ i, i < st.frames.length → ∀ j, j < (st.frames.getD i dummyFrame).state.players.length →
      (((st.frames.getD i dummyFrame).state.players.getD j dummyPlayerState).hp = FALLBACK_HP →
        (((backfillFallbackHp next st).frames.getD i dummyFrame).state.players.getD j dummyPlayerState).hp = next) ∧
      (((st.frames.getD i dummyFrame).state.players.getD j dummyPlayerState).hp ≠ FALLBACK_HP →
        (((backfillFallbackHp next st).frames.getD i dummyFrame).state.players.getD j dummyPlayerState).hp =
          ((st.frames.getD i dummyFrame).state.players.getD j dummyPlayerState).hp) := by
  unfold backfillFallbackHp
  rw [if_pos (show next > st.maxHpSeen from h)]
  dsimp only
  refine ⟨by simp, ?_⟩
  intro i hi j hj
  rw [getD_map_of_lt _ _ _ dummyFrame _ hi]
  dsimp only
  rw [getD_map_of_lt _ _ _ dummyPlayerState _ hj]
  by_cases hhp : ((st.frames.getD i dummyFrame).state.players.getD j dummyPlayerState).hp = FALLBACK_HP
  · rw [if_pos hhp]
    exact ⟨fun _ => rfl, fun hne => absurd hhp hne⟩
  · rw [if_neg hhp]
    exact ⟨fun heq => absurd heq hhp, fun _ => rfl⟩

/-- Witness for C4: upgrading the ceiling from 3 to 5 rewrites the
placeholder-HP player of the recorded frame to 5 and leaves the damaged
player at 2. -/
theorem backfill_placeholder_upgrade_witness :
    (((backfillFallbackHp 5 c4State).frames.getD 0 dummyFrame).state.players.getD 0 dummyPlayerState).hp = 5 ∧
    (((backfillFallbackHp 5 c4State).frames.getD 0 dummyFrame).state.players.getD 1 dummyPlayerState).hp = 2 := by
  have h := backfill_placeholder_upgrade c4State 5 (by decide)
  constructor
  · exact (h.2 0 (by decide) 0 (by decide)).1 (by decide)
  · rw [(h.2 0 (by decide) 1 (by decide)).2 (by decide)]
    rfl


theorem isPrefixCI_imp : ∀ (pat cs : List Char), isPrefixCI pat cs = true →
    pat <+: cs.map Char.toLower := by
  intro pat
  induction pat with
  | nil => intro cs _; exact List.nil_prefix
  | cons p ps ih =>
    intro cs h
    cases cs with
    | nil => simp [isPrefixCI] at h
    | cons c cs' =>
      simp only [isPrefixCI, Bool.and_eq_true, decide_eq_true_eq] at h
      simp only [List.map_cons]
      rw [List.cons_prefix_cons]
      exact ⟨h.1.symm, ih cs' h.2⟩

theorem containsSub_of_infix : ∀ (hay nd : List Char), nd <:+: hay →
    listContainsSub hay nd = true := by
  intro hay
  induction hay with
  | nil =>
    intro nd h
    rcases nd with _ | ⟨n, nt⟩
    · rfl
    · exact absurd (List.eq_nil_of_infix_nil h) (by simp)
  | cons h t ih =>
    intro nd hin
    rcases nd with _ | ⟨n, nt⟩
    · rfl
    · rcases List.infix_cons_iff.mp hin with hp | hi
      · simp [listContainsSub, List.isPrefixOf_iff_prefix, hp]
      · simp [listContainsSub, ih _ hi]

theorem infix_lower_of_prefixCI {pat cs : List Char} (big : List Char)
    (hsub : cs <:+: big) (h : isPrefixCI pat cs = true) :
    pat <:+: big.map Char.toLower :=
  ((isPrefixCI_imp pat cs h).isInfix.trans (hsub.map Char.toLower))

theorem startsTriple_infix_lower {cs : List Char} (big : List Char)
    (hsub : cs <:+: big) (h : startsTriple cs = true) :
    "```".data <:+: big.map Char.toLower := by
  rcases cs with _ | ⟨a, _ | ⟨b, _ | ⟨c, rest⟩⟩⟩ <;> simp [startsTriple] at h
  obtain ⟨⟨ha, hb⟩, hc⟩ := h
  subst ha; subst hb; subst hc
  refine List.IsInfix.trans ?_ (hsub.map Char.toLower)
  exact (show "```".data <+: (btick :: btick :: btick :: rest).map Char.toLower from
    by simp [List.cons_prefix_cons, btick]).isInfix


theorem startsJsonFence_triple {cs : List Char} (h : startsJsonFence cs = true) :
    "```".data <:+: cs.map Char.toLower := by
  have hp := isPrefixCI_imp _ _ h
  exact (List.IsPrefix.trans (show "```".data <+: "```json".data from ⟨"json".data, rfl⟩) hp).isInfix

theorem pass1Go_id : ∀ (fuel : ℕ) (cs : List Char),
    ¬ ("```".data <:+: cs.map Char.toLower) → pass1Go fuel cs = cs := by
  intro fuel
  induction fuel with
  | zero => intro cs _; rfl
  | succ f ih =>
    intro cs h
    cases cs with
    | nil => rfl
    | cons c rest =>
      have hf : startsJsonFence (c :: rest) = false := by
        cases hsf : startsJsonFence (c :: rest)
        · rfl
        · exact absurd (startsJsonFence_triple hsf) h
      have hrest : ¬ ("```".data <:+: rest.map Char.toLower) := by
        intro hr
        exact h (List.infix_cons hr)
      simp only [pass1Go, hf, Bool.false_eq_true, if_false]
      rw [ih rest hrest]

theorem pass2Go_id : ∀ (fuel : ℕ) (cs : List Char),
    ¬ ("```".data <:+: cs.map Char.toLower) → pass2Go fuel cs = cs := by
  intro fuel
  induction fuel with
  | zero => intro cs _; rfl
  | succ f ih =>
    intro cs h
    cases cs with
    | nil => rfl
    | cons c rest =>
      have hf : startsTriple (c :: rest) = false := by
        cases hsf : startsTriple (c :: rest)
        · rfl
        · exact absurd (startsTriple_infix_lower (c :: rest) (List.infix_refl _) hsf) h
      have hrest : ¬ ("```".data <:+: rest.map Char.toLower) := fun hr => h (List.infix_cons hr)
      simp only [pass2Go, hf, Bool.false_eq_true, if_false]
      rw [ih rest hrest]

theorem pass5Go_id : ∀ (fuel : ℕ) (cs : List Char),
    ¬ ("```".data <:+: cs.map Char.toLower) → pass5Go fuel cs = cs := by
  intro fuel
  induction fuel with
  | zero => intro cs _; rfl
  | succ f ih =>
    intro cs h
    cases cs with
    | nil => rfl
    | cons c rest =>
      have hf : startsTriple (c :: rest) = false := by
        cases hsf : startsTriple (c :: rest)
        · rfl
        · exact absurd (startsTriple_infix_lower (c :: rest) (List.infix_refl _) hsf) h
      have hrest : ¬ ("```".data <:+: rest.map Char.toLower) := fun hr => h (List.infix_cons hr)
      simp only [pass5Go, hf, Bool.false_eq_true, if_false]
      rw [ih rest hrest]

theorem findJsonFenceSplit_none : ∀ (cs : List Char),
    ¬ ("```".data <:+: cs.map Char.toLower) → findJsonFenceSplit cs = none := by
  intro cs
  induction cs with
  | nil => intro _; rfl
  | cons c rest ih =>
    intro h
    have hf : startsJsonFence (c :: rest) = false := by
      cases hsf : startsJsonFence (c :: rest)
      · rfl
      · exact absurd (startsJsonFence_triple hsf) h
    have hrest : ¬ ("```".data <:+: rest.map Char.toLower) := fun hr => h (List.infix_cons hr)
    simp only [findJsonFenceSplit, hf, Bool.false_eq_true, if_false]
    rw [ih hrest]

theorem pass3_id (cs : List Char) (h : ¬ ("```".data <:+: cs.map Char.toLower)) :
    pass3 cs = cs := by
  unfold pass3
  rw [findJsonFenceSplit_none cs h]

theorem toolCallsColonSplitCI_none : ∀ (cs : List Char),
    ¬ ("tool_calls".data <:+: cs.map Char.toLower) → toolCallsColonSplitCI cs = none := by
  intro cs
  induction cs with
  | nil => intro _; rfl
  | cons c rest ih =>
    intro h
    have hf : isPrefixCI "\"tool_calls\"".data (c :: rest) = false := by
      cases hsf : isPrefixCI "\"tool_calls\"".data (c :: rest)
      · rfl
      · exfalso
        have hq := infix_lower_of_prefixCI (c :: rest) (List.infix_refl _) hsf
        have hsubtc : "tool_calls".data <:+: "\"tool_calls\"".data := ⟨['"'], ['"'], rfl⟩
        exact h (hsubtc.trans hq)
    have hrest : ¬ ("tool_calls".data <:+: rest.map Char.toLower) := fun hr => h (List.infix_cons hr)
    simp only [toolCallsColonSplitCI, hf, Bool.false_eq_true, if_false]
    rw [ih hrest]

theorem findBraceSplit_none : ∀ (cs : List Char),
    ¬ ("tool_calls".data <:+: cs.map Char.toLower) → findBraceSplit cs = none := by
  intro cs
  induction cs with
  | nil => intro _; rfl
  | cons c rest ih =>
    intro h
    have hrest : ¬ ("tool_calls".data <:+: rest.map Char.toLower) := fun hr => h (List.infix_cons hr)
    have hbt : braceTail rest = false := by
      unfold braceTail
      rw [toolCallsColonSplitCI_none rest hrest]
    simp only [findBraceSplit, hbt, Bool.and_false, Bool.false_eq_true, if_false]
    rw [ih hrest]

theorem pass4_id (cs : List Char) (h : ¬ ("tool_calls".data <:+: cs.map Char.toLower)) :
    pass4 cs = cs := by
  unfold pass4
  rw [findBraceSplit_none cs h]


/-- C7 (amended): sanitization is the identity (up to whitespace trimming)
on every message that carries no tool-call content and no triple-backtick
fence; fenced blocks are stripped whether or not they are tool calls, so the
fence exclusion is necessary. -/
theorem sanitize_no_fence_identity (s : String)
    (htc : noToolCallContentB s = true) (hf : hasTripleFenceB s = false) :
    sanitize s = jsTrim s := by
  have hlow : (jsLower s).data = s.data.map Char.toLower := rfl
  have h1 : ¬ ("```".data <:+: s.data.map Char.toLower) := by
    intro hin
    rw [hasTripleFenceB, hlow, containsSub_of_infix _ _ hin] at hf
    exact Bool.noConfusion hf
  have h2 : ¬ ("tool_calls".data <:+: s.data.map Char.toLower) := by
    intro hin
    rw [noToolCallContentB, hlow, containsSub_of_infix _ _ hin] at htc
    exact Bool.noConfusion htc
  unfold sanitize pass1 pass2 pass5
  rw [pass1Go_id _ _ h1, pass2Go_id _ _ h1, pass3_id _ h1, pass4_id _ h2, pass5Go_id _ _ h1]

/-- C7 counterexample: an ordinary code-fenced block with no tool-call
content is stripped by `sanitize`, so the output differs from the trimmed
input. -/
theorem sanitize_fenced_block_counterexample :
    noToolCallContentB c7Input = true ∧ sanitize c7Input ≠ jsTrim c7Input := by
  constructor
  · decide
  · decide

/-- Witness for the amended C7 on a plain message. -/
theorem sanitize_no_fence_identity_witness : sanitize "hello world" = jsTrim "hello world" :=
  sanitize_no_fence_identity "hello world" (by decide) (by decide)

/-! ### C10: action/frame cross-reference soundness

Projection lemmas for `actions` and the frame-label list through every
helper and handler of the event loop, the `ActInv` preservation chain, and
label preservation of the repair pass. -/

theorem ensurePlayerBase_actions (a n v : String) (st : ParseState) :
    (ensurePlayerBase a n v st).actions = st.actions := by
  unfold ensurePlayerBase; dsimp only; repeat' split
  all_goals rfl

theorem ensurePlayerAvatar_actions (a v : String) (st : ParseState) :
    (ensurePlayerAvatar a v st).actions = st.actions := by
  unfold ensurePlayerAvatar; dsimp only; repeat' split
  all_goals rfl

theorem ensurePlayerNames_actions (a n : String) (st : ParseState) :
    (ensurePlayerNames a n st).actions = st.actions := by
  unfold ensurePlayerNames; repeat' split
  all_goals rfl

theorem ensurePlayer_actions (a n v : String) (st : ParseState) :
    (ensurePlayer a n v st).actions = st.actions := by
  unfold ensurePlayer
  rw [ensurePlayerNames_actions, ensurePlayerAvatar_actions, ensurePlayerBase_actions]

theorem setPlayer_actions (a : String) (f : MutablePlayer → MutablePlayer) (st : ParseState) :
    (setPlayer a f st).actions = st.actions := by
  unfold setPlayer; repeat' split
  all_goals rfl

theorem pushLog_actions (k : String) (p : JRec) (st : ParseState) :
    (pushLog k p st).actions = st.actions := rfl

theorem pushFrame_actions (l : String) (st : ParseState) :
    (pushFrame l st).actions = st.actions := rfl

theorem backfill_actions (q : ℚ) (st : ParseState) :
    (backfillFallbackHp q st).actions = st.actions := by
  unfold backfillFallbackHp; repeat' split
  all_goals rfl

theorem ensureCommentator_actions (st : ParseState) :
    (ensureCommentatorExists st).actions = st.actions := by
  unfold ensureCommentatorExists; dsimp only; repeat' split
  all_goals (try simp only [ensurePlayer_actions])
  all_goals rfl

theorem agentTextUpdate_actions (e : String) (p : JRec) (a n : String) (st : ParseState) :
    (agentTextUpdate e p a n st).actions = st.actions := by
  unfold agentTextUpdate; dsimp only; repeat' split
  all_goals (try simp only [pushLog_actions])
  all_goals rfl

theorem agentTextFrame_actions (e : String) (p : JRec) (a n : String) (st : ParseState) :
    (agentTextFrame e p a n st).actions = st.actions := by
  unfold agentTextFrame; dsimp only; repeat' split
  all_goals (try simp only [pushFrame_actions])
  all_goals rfl

theorem handleAgentInteraction_actions (e : String) (p : JRec) (st : ParseState) :
    (handleAgentInteraction e p st).actions = st.actions := by
  unfold handleAgentInteraction; dsimp only; repeat' split
  all_goals (try simp only [agentTextUpdate_actions, agentTextFrame_actions])
  all_goals (try rw [foldl_preserves _ ParseState.actions (fun b a => ensurePlayer_actions _ _ _ b)])
  all_goals (try rw [ensurePlayer_actions])
  all_goals rfl

theorem handleGameStarted_actions (p : JRec) (st : ParseState) :
    (handleGameStarted p st).actions = st.actions := by
  unfold handleGameStarted; dsimp only
  rw [pushFrame_actions]
  rw [foldl_preserves _ ParseState.actions (fun b a => ensurePlayer_actions _ _ _ b)]

theorem playerMovedCore_actions (p : JRec) (a : String) (st : ParseState) :
    (playerMovedCore p a st).actions = st.actions := by
  unfold playerMovedCore; dsimp only; repeat' split
  all_goals (try simp only [setPlayer_actions, backfill_actions])
  all_goals rfl

theorem handlePlayerHit_actions (p : JRec) (st : ParseState) :
    (handlePlayerHit p st).actions = st.actions := by
  unfold handlePlayerHit; dsimp only; repeat' split
  all_goals (try simp only [pushFrame_actions, setPlayer_actions, backfill_actions,
    ensurePlayer_actions])
  all_goals rfl

theorem handleTruckMoved_actions (p : JRec) (st : ParseState) :
    (handleTruckMoved p st).actions = st.actions := rfl

theorem handleCommentatorBroadcast_actions (p : JRec) (st : ParseState) :
    (handleCommentatorBroadcast p st).actions = st.actions := by
  unfold handleCommentatorBroadcast; dsimp only
  rw [pushFrame_actions, pushLog_actions, setPlayer_actions, ensurePlayer_actions]

theorem handlePublicBroadcast_actions (p : JRec) (st : ParseState) :
    (handlePublicBroadcast p st).actions = st.actions := by
  unfold handlePublicBroadcast; dsimp only; repeat' split
  all_goals (try simp only [pushFrame_actions, pushLog_actions, setPlayer_actions,
    ensurePlayer_actions])
  all_goals rfl



theorem ensurePlayerBase_frames (a n v : String) (st : ParseState) :
    (ensurePlayerBase a n v st).frames = st.frames := by
  unfold ensurePlayerBase; dsimp only; repeat' split
  all_goals rfl

theorem ensurePlayerAvatar_frames (a v : String) (st : ParseState) :
    (ensurePlayerAvatar a v st).frames = st.frames := by
  unfold ensurePlayerAvatar; dsimp only; repeat' split
  all_goals rfl

theorem ensurePlayerNames_frames (a n : String) (st : ParseState) :
    (ensurePlayerNames a n st).frames = st.frames := by
  unfold ensurePlayerNames; repeat' split
  all_goals rfl

theorem ensurePlayer_frames (a n v : String) (st : ParseState) :
    (ensurePlayer a n v st).frames = st.frames := by
  unfold ensurePlayer
  rw [ensurePlayerNames_frames, ensurePlayerAvatar_frames, ensurePlayerBase_frames]

theorem setPlayer_frames (a : String) (f : MutablePlayer → MutablePlayer) (st : ParseState) :
    (setPlayer a f st).frames = st.frames := by
  unfold setPlayer; repeat' split
  all_goals rfl

theorem pushLog_frames (k : String) (p : JRec) (st : ParseState) :
    (pushLog k p st).frames = st.frames := rfl

theorem ensureCommentator_frames (st : ParseState) :
    (ensureCommentatorExists st).frames = st.frames := by
  unfold ensureCommentatorExists; dsimp only; repeat' split
  all_goals (try simp only [ensurePlayer_frames])
  all_goals rfl

theorem pushFrame_labelmap (l : String) (st : ParseState) :
    (pushFrame l st).frames.map (fun f => f.label) = st.frames.map (fun f => f.label) ++ [l] := by
  unfold pushFrame
  dsimp only
  rw [List.map_append]
  rfl

theorem backfill_labelmap (q : ℚ) (st : ParseState) :
    (backfillFallbackHp q st).frames.map (fun f => f.label) = st.frames.map (fun f => f.label) := by
  unfold backfillFallbackHp
  split
  · dsimp only
    rw [List.map_map]
    exact List.map_congr_left (fun fr _ => rfl)
  · rfl

theorem agentTextUpdate_frames (e : String) (p : JRec) (a n : String) (st : ParseState) :
    (agentTextUpdate e p a n st).frames = st.frames := by
  unfold agentTextUpdate; dsimp only; repeat' split
  all_goals rfl

theorem playerMovedCore_labelmap (p : JRec) (a : String) (st : ParseState) :
    (playerMovedCore p a st).frames.map (fun f => f.label) = st.frames.map (fun f => f.label) := by
  unfold playerMovedCore; dsimp only; repeat' split
  all_goals (try simp only [setPlayer_frames, backfill_labelmap])
  all_goals (rw [List.map_map]; exact List.map_congr_left (fun fr _ => rfl))


theorem handleGameStarted_labelmap (p : JRec) (st : ParseState) :
    (handleGameStarted p st).frames.map (fun f => f.label)
      = st.frames.map (fun f => f.label) ++ ["game_started"] := by
  unfold handleGameStarted; dsimp only
  rw [pushFrame_labelmap]; dsimp only
  rw [foldl_preserves _ ParseState.frames (fun b a => ensurePlayer_frames _ _ _ b)]

theorem handleTruckMoved_labelmap (p : JRec) (st : ParseState) :
    (handleTruckMoved p st).frames.map (fun f => f.label)
      = st.frames.map (fun f => f.label) ++ ["truck_moved"] := by
  unfold handleTruckMoved; dsimp only
  rw [pushFrame_labelmap]

theorem handlePlayerHit_labelmap (p : JRec) (st : ParseState) :
    (handlePlayerHit p st).frames.map (fun f => f.label)
      = st.frames.map (fun f => f.label) ++ ["player_hit"] := by
  unfold handlePlayerHit; dsimp only
  rw [pushFrame_labelmap]
  repeat' split
  all_goals (try simp only [setPlayer_frames, backfill_labelmap, ensurePlayer_frames])
  all_goals rfl

theorem handleCommentatorBroadcast_labelmap (p : JRec) (st : ParseState) :
    (handleCommentatorBroadcast p st).frames.map (fun f => f.label)
      = st.frames.map (fun f => f.label) ++ ["commentator_broadcast"] := by
  unfold handleCommentatorBroadcast; dsimp only
  rw [pushFrame_labelmap]
  simp only [pushLog_frames, setPlayer_frames, ensurePlayer_frames]

theorem handlePublicBroadcast_labelmap (p : JRec) (st : ParseState) :
    (handlePublicBroadcast p st).frames.map (fun f => f.label)
      = st.frames.map (fun f => f.label) ++ ["public_broadcast"] := by
  unfold handlePublicBroadcast; dsimp only
  rw [pushFrame_labelmap]
  repeat' split
  all_goals (try simp only [pushLog_frames, setPlayer_frames, ensurePlayer_frames])
  all_goals rfl

theorem agentTextFrame_labelmap (e : String) (p : JRec) (a n : String) (st : ParseState) :
    (agentTextFrame e p a n st).frames.map (fun f => f.label)
      = st.frames.map (fun f => f.label) ++ [e] := by
  unfold agentTextFrame; dsimp only
  split
  all_goals (try dsimp only)
  all_goals rw [pushFrame_labelmap]

theorem handleAgentInteraction_labelmap_ext (e : String) (p : JRec) (st : ParseState) :
    ∃ t, (handleAgentInteraction e p st).frames.map (fun f => f.label)
      = st.frames.map (fun f => f.label) ++ t := by
  unfold handleAgentInteraction; dsimp only
  split
  · refine ⟨[e], ?_⟩
    rw [agentTextFrame_labelmap]
    congr 1
    split
    all_goals (try rw [agentTextUpdate_frames])
    all_goals rw [foldl_preserves _ ParseState.frames (fun b a => ensurePlayer_frames _ _ _ b)]
    all_goals (try rw [ensurePlayer_frames])
    all_goals rfl
  · refine ⟨[], ?_⟩
    rw [List.append_nil]
    rw [foldl_preserves _ ParseState.frames (fun b a => ensurePlayer_frames _ _ _ b)]
    split
    all_goals (try rw [ensurePlayer_frames])
    all_goals rfl


theorem getD_append_lt {α : Type} (l t : List α) (d : α) (i : ℕ) (h : i < l.length) :
    (l ++ t).getD i d = l.getD i d := by
  induction l generalizing i with
  | nil => cases h
  | cons a s ih =>
    cases i with
    | zero => rfl
    | succ j => simpa using ih j (Nat.lt_of_succ_lt_succ h)

theorem getD_append_length {α : Type} (l : List α) (x d : α) :
    (l ++ [x]).getD l.length d = x := by
  induction l with
  | nil => rfl
  | cons a t ih => simpa using ih

theorem playerMovedTail_step (p : JRec) (a n : String) (st : ParseState) :
    ∃ act : ReplayAction,
      (playerMovedTail p a n st).actions = st.actions ++ [act] ∧
      act.frameIndex = st.frames.length ∧
      (playerMovedTail p a n st).frames.map (fun f => f.label)
        = st.frames.map (fun f => f.label) ++ ["player_moved"] := by
  unfold playerMovedTail; dsimp only
  refine ⟨_, rfl, ?_, ?_⟩
  · simp [pushFrame]
  · exact pushFrame_labelmap "player_moved" st

theorem actInvOn_extend (acts : List ReplayAction) (l t : List String)
    (h : ActInvOn acts l) : ActInvOn acts (l ++ t) := by
  obtain ⟨h1, h2⟩ := h
  refine ⟨?_, h2⟩
  intro a ha
  obtain ⟨hlt, hget⟩ := h1 a ha
  refine ⟨hlt.trans_le (by rw [List.length_append]; exact Nat.le_add_right _ _), ?_⟩
  rw [getD_append_lt _ _ _ _ hlt]
  exact hget

theorem actInvOn_snoc (acts : List ReplayAction) (l : List String) (act : ReplayAction)
    (hidx : act.frameIndex = l.length) (h : ActInvOn acts l) :
    ActInvOn (acts ++ [act]) (l ++ ["player_moved"]) := by
  obtain ⟨h1, h2⟩ := h
  constructor
  · intro a ha
    rcases List.mem_append.mp ha with ha | ha
    · obtain ⟨hlt, hget⟩ := h1 a ha
      refine ⟨?_, ?_⟩
      · rw [List.length_append]; exact hlt.trans_le (Nat.le_add_right _ _)
      · rw [getD_append_lt _ _ _ _ hlt]; exact hget
    · rcases List.mem_singleton.mp ha with rfl
      refine ⟨?_, ?_⟩
      · rw [hidx, List.length_append]; simp
      · rw [hidx, getD_append_length]
  · rw [List.map_append]
    refine List.pairwise_append.mpr ⟨h2, List.pairwise_singleton _ _, ?_⟩
    intro x hx y hy
    rcases List.mem_map.mp hx with ⟨a0, ha0, rfl⟩
    rcases List.mem_singleton.mp hy with rfl
    rw [hidx]
    exact (h1 a0 ha0).1

theorem actInv_transport (s2 s1 : ParseState)
    (hA : s2.actions = s1.actions)
    (hL : ∃ t, s2.frames.map (fun f => f.label) = s1.frames.map (fun f => f.label) ++ t)
    (h : ActInv s1) : ActInv s2 := by
  obtain ⟨t, hL⟩ := hL
  unfold ActInv labelsOf at h ⊢
  rw [hA, hL]
  exact actInvOn_extend _ _ _ h

theorem actInv_playerMovedTail (p : JRec) (a n : String) (st : ParseState) (h : ActInv st) :
    ActInv (playerMovedTail p a n st) := by
  obtain ⟨act, hact, hidx, hlab⟩ := playerMovedTail_step p a n st
  unfold ActInv labelsOf at h ⊢
  rw [hact, hlab]
  refine actInvOn_snoc _ _ _ ?_ h
  rw [hidx, List.length_map]

theorem actInv_handlePlayerMoved (p : JRec) (st : ParseState) (h : ActInv st) :
    ActInv (handlePlayerMoved p st) := by
  unfold handlePlayerMoved; dsimp only
  refine actInv_playerMovedTail _ _ _ _ (actInv_transport _ st ?_ ?_ h)
  · rw [playerMovedCore_actions, ensurePlayer_actions]
  · refine ⟨[], ?_⟩
    rw [List.append_nil, playerMovedCore_labelmap, ensurePlayer_frames]

theorem actInv_dispatchEvent (e mt : String) (p : JRec) (st : ParseState) (h : ActInv st) :
    ActInv (dispatchEvent e mt p st) := by
  unfold dispatchEvent
  repeat' split
  · exact actInv_transport _ _ (handleGameStarted_actions p st) ⟨_, handleGameStarted_labelmap p st⟩ h
  · exact actInv_transport _ _ (handleAgentInteraction_actions e p st) (handleAgentInteraction_labelmap_ext e p st) h
  · exact actInv_handlePlayerMoved p st h
  · exact actInv_transport _ _ (handlePlayerHit_actions p st) ⟨_, handlePlayerHit_labelmap p st⟩ h
  · exact actInv_transport _ _ (handleTruckMoved_actions p st) ⟨_, handleTruckMoved_labelmap p st⟩ h
  · exact actInv_transport _ _ (handleCommentatorBroadcast_actions p st) ⟨_, handleCommentatorBroadcast_labelmap p st⟩ h
  · exact actInv_transport _ _ (handlePublicBroadcast_actions p st) ⟨_, handlePublicBroadcast_labelmap p st⟩ h
  · exact actInv_transport _ _ (pushFrame_actions e st) ⟨_, pushFrame_labelmap e st⟩ h
  · exact h


theorem actInv_processMessage (st : ParseState) (m : JVal) (h : ActInv st) :
    ActInv (processMessage st m) := by
  unfold processMessage; dsimp only
  apply actInv_dispatchEvent
  split
  · split
    · exact h
    · exact h
  · exact h

theorem actInv_processAll (msgs : List JVal) (st : ParseState) (h : ActInv st) :
    ActInv (processAll msgs st) := by
  unfold processAll
  induction msgs generalizing st with
  | nil => exact h
  | cons m t ih => exact ih _ (actInv_processMessage _ _ h)

theorem initState_frames (input : JVal) : (initState input).frames = [] := by
  unfold initState; dsimp only
  rw [ensureCommentator_frames]
  rw [foldl_preserves _ ParseState.frames ?hpreF]
  case hpreF =>
    intro b a
    dsimp only
    split
    · rfl
    · exact ensurePlayer_frames _ _ _ b

theorem initState_actions (input : JVal) : (initState input).actions = [] := by
  unfold initState; dsimp only
  rw [ensureCommentator_actions]
  rw [foldl_preserves _ ParseState.actions ?hpreA]
  case hpreA =>
    intro b a
    dsimp only
    split
    · rfl
    · exact ensurePlayer_actions _ _ _ b

theorem actInv_initState (input : JVal) : ActInv (initState input) := by
  unfold ActInv labelsOf
  rw [initState_frames, initState_actions]
  constructor
  · intro a ha
    exact absurd ha (List.not_mem_nil a)
  · simp

theorem finalize_frames (st : ParseState) : (finalize st).frames = st.frames := by
  unfold finalize; dsimp only
  rw [ensureCommentator_frames]

theorem finalize_actions (st : ParseState) : (finalize st).actions = st.actions := by
  unfold finalize; dsimp only
  rw [ensureCommentator_actions]

theorem actInv_parseFinalState (input : JVal) : ActInv (parseFinalState input) := by
  unfold parseFinalState
  have h := actInv_processAll (coreMessagesOf input) _ (actInv_initState input)
  unfold ActInv labelsOf at h ⊢
  rw [finalize_actions, finalize_frames]
  exact h

theorem repairGo_labelmap (abf : List (ℕ × ReplayAction)) :
    ∀ (l : List ReplayFrame) (prev : ReplayFrame) (i : ℕ),
      (repairGo abf prev l i).map (fun f => f.label) = l.map (fun f => f.label) := by
  intro l
  induction l with
  | nil => intro prev i; rfl
  | cons c t ih =>
    intro prev i
    unfold repairGo; dsimp only
    rw [List.map_cons, List.map_cons, ih]
    rfl

theorem repairFrames_labelmap (fs : List ReplayFrame) (abf : List (ℕ × ReplayAction)) :
    (repairFrames fs abf).map (fun f => f.label) = fs.map (fun f => f.label) := by
  unfold repairFrames
  split
  · rfl
  · rw [List.map_cons, List.map_cons, repairGo_labelmap]


/-- C10: every `ReplayAction` returned by `parseLegacyExport` carries a
`frameIndex` that is a valid index into the returned frame list, the frame
at that index is labelled `player_moved`, and the `frameIndex` values
strictly increase along the actions list. -/
theorem actions_frameIndex_sound (input : JVal) :
    (∀ a ∈ (parseLegacyExport input).actions,
        a.frameIndex < (parseLegacyExport input).frames.length ∧
        (frameLabels (parseLegacyExport input).frames).getD a.frameIndex "" = "player_moved") ∧
    List.Pairwise (· < ·) ((parseLegacyExport input).actions.map ReplayAction.frameIndex) := by
  by_cases hE : (coreMessagesOf input).isEmpty = true
  · have ht : parseLegacyExport input = { frames := [], actions := [], discussions := [] } := by
      unfold parseLegacyExport
      dsimp only
      rw [if_pos hE]
    rw [ht]
    constructor
    · intro a ha
      exact absurd ha (List.not_mem_nil a)
    · simp
  · have ht : parseLegacyExport input =
        { frames := repairFrames (parseFinalState input).frames
            (actionByFrame (parseFinalState input).actions)
          actions := (parseFinalState input).actions
          discussions := (parseFinalState input).discussions } := by
      unfold parseLegacyExport
      dsimp only
      rw [if_neg hE]
    rw [ht]
    dsimp only
    have hAI := actInv_parseFinalState input
    unfold ActInv ActInvOn labelsOf at hAI
    obtain ⟨h1, h2⟩ := hAI
    have hlab := repairFrames_labelmap (parseFinalState input).frames
      (actionByFrame (parseFinalState input).actions)
    have hlen : (repairFrames (parseFinalState input).frames
        (actionByFrame (parseFinalState input).actions)).length
        = (parseFinalState input).frames.length := by
      have h3 := congrArg List.length hlab
      simpa using h3
    constructor
    · intro a ha
      obtain ⟨hlt, hget⟩ := h1 a ha
      rw [List.length_map] at hlt
      refine ⟨?_, ?_⟩
      · rw [hlen]
        exact hlt
      · unfold frameLabels
        rw [hlab]
        exact hget
    · exact h2

/-! ### C1: HP bound invariant

`HpInv` preservation through every operation of the event loop, HP
preservation of the repair pass, the counterexample to the claimed
at-that-point bound, and the amended final-ceiling bound. -/

/-- Replacing only the `players` field keeps `HpInv` when the new list is
bounded by the unchanged ceiling. -/
theorem hpInv_set_players (st : ParseState) (ps : List (String × MutablePlayer))
    (hps : ∀ kp ∈ ps, 0 ≤ kp.2.hp ∧ kp.2.hp ≤ st.maxHpSeen) (h : HpInv st) :
    HpInv { st with players := ps } :=
  ⟨h.1, hps, h.2.2.1, h.2.2.2.1, h.2.2.2.2⟩

/-- A pointwise property survives an `alistSet` when it holds for the
inserted pair. -/
theorem alistSet_forall {K V : Type} [DecidableEq K] (l : List (K × V)) (k : K) (v : V)
    (P : K × V → Prop) (hv : P (k, v)) (hl : ∀ kp ∈ l, P kp) : ∀ kp ∈ alistSet l k v, P kp := by
  intro kp hkp
  rcases alistSet_mem l k v kp hkp with h | hkp
  · rw [h]; exact hv
  · exact hl kp hkp

theorem hpInv_ensurePlayerBase (a n v : String) (st : ParseState) (h : HpInv st) :
    HpInv (ensurePlayerBase a n v st) := by
  unfold ensurePlayerBase; dsimp only
  repeat' split
  all_goals (try exact h)
  · rename_i current heq
    refine hpInv_set_players st _ ?_ h
    refine alistSet_forall _ _ _ _ ?_ h.2.1
    exact h.2.1 (a, current) (alistGet_mem _ _ _ heq)
  · refine hpInv_set_players st _ ?_ h
    refine alistSet_forall _ _ _ _ ?_ h.2.1
    exact ⟨le_of_lt h.1, le_refl _⟩

theorem hpInv_ensurePlayerAvatar (a v : String) (st : ParseState) (h : HpInv st) :
    HpInv (ensurePlayerAvatar a v st) := by
  unfold ensurePlayerAvatar; dsimp only
  repeat' split
  all_goals (try exact h)
  · rename_i current heq
    exact hpInv_set_players st _
      (alistSet_forall _ _ _ _ (h.2.1 (a, current) (alistGet_mem _ _ _ heq)) h.2.1) h

theorem hpInv_ensurePlayerNames (a n : String) (st : ParseState) (h : HpInv st) :
    HpInv (ensurePlayerNames a n st) := by
  unfold ensurePlayerNames
  split
  · exact h
  · exact h

theorem hpInv_ensurePlayer (a n v : String) (st : ParseState) (h : HpInv st) :
    HpInv (ensurePlayer a n v st) := by
  unfold ensurePlayer
  exact hpInv_ensurePlayerNames _ _ _ (hpInv_ensurePlayerAvatar _ _ _ (hpInv_ensurePlayerBase _ _ _ _ h))

theorem hpInv_setPlayer (a : String) (f : MutablePlayer → MutablePlayer) (st : ParseState)
    (hf : ∀ p, (0 ≤ p.hp ∧ p.hp ≤ st.maxHpSeen) → 0 ≤ (f p).hp ∧ (f p).hp ≤ st.maxHpSeen)
    (h : HpInv st) : HpInv (setPlayer a f st) := by
  unfold setPlayer
  split
  · rename_i p heq
    exact hpInv_set_players st _
      (alistSet_forall _ _ _ _ (hf p (h.2.1 (a, p) (alistGet_mem _ _ _ heq))) h.2.1) h
  · exact h

theorem hpInv_pushLog (k : String) (p : JRec) (st : ParseState) (h : HpInv st) :
    HpInv (pushLog k p st) := h


/-- Appending an element dominating the whole list keeps a `≤`-chain. -/
theorem chain_le_append_singleton (l : List ℚ) (m : ℚ) (hb : ∀ c ∈ l, c ≤ m)
    (hc : List.Chain' (· ≤ ·) l) : List.Chain' (· ≤ ·) (l ++ [m]) := by
  induction l with
  | nil => simp
  | cons a t ih =>
    rw [List.cons_append]
    refine List.chain'_cons'.mpr ⟨?_, ih (fun c hct => hb c (List.mem_cons_of_mem _ hct))
      (List.chain'_cons'.mp hc).2⟩
    intro y hy
    cases t with
    | nil =>
      simp only [List.nil_append, List.head?_cons, Option.mem_def, Option.some.injEq] at hy
      rw [← hy]
      exact hb a (List.mem_cons_self _ _)
    | cons b s =>
      simp only [List.cons_append, List.head?_cons, Option.mem_def, Option.some.injEq] at hy
      rw [← hy]
      exact (List.chain'_cons'.mp hc).1 b (by simp)

theorem hpInv_pushFrame (l : String) (st : ParseState) (h : HpInv st) :
    HpInv (pushFrame l st) := by
  obtain ⟨h1, h2, h3, h4, h5⟩ := h
  unfold pushFrame HpInv
  dsimp only
  refine ⟨h1, h2, ?_, ?_, ?_⟩
  · intro fr hfr p hp
    rcases List.mem_append.mp hfr with hfr | hfr
    · exact h3 fr hfr p hp
    · rcases List.mem_singleton.mp hfr with rfl
      rcases List.mem_map.mp hp with ⟨kp, hkp, rfl⟩
      exact h2 kp hkp
  · exact chain_le_append_singleton _ _ h5 h4
  · intro c hc
    rcases List.mem_append.mp hc with hc | hc
    · exact h5 c hc
    · rcases List.mem_singleton.mp hc with rfl
      exact le_refl _

theorem hpInv_backfill (q : ℚ) (st : ParseState) (h : HpInv st) :
    HpInv (backfillFallbackHp q st) := by
  obtain ⟨h1, h2, h3, h4, h5⟩ := h
  unfold backfillFallbackHp HpInv
  split
  · rename_i hgt
    dsimp only
    refine ⟨lt_trans h1 hgt, ?_, ?_, h4, ?_⟩
    · intro kp hkp
      rcases List.mem_map.mp hkp with ⟨kp0, hkp0, rfl⟩
      dsimp only
      split
      · exact ⟨le_of_lt (lt_trans h1 hgt), le_refl q⟩
      · obtain ⟨ha, hb⟩ := h2 kp0 hkp0
        exact ⟨ha, le_trans hb (le_of_lt hgt)⟩
    · intro fr hfr p hp
      rcases List.mem_map.mp hfr with ⟨fr0, hfr0, rfl⟩
      dsimp only at hp
      rcases List.mem_map.mp hp with ⟨p0, hp0, rfl⟩
      split
      · exact ⟨le_of_lt (lt_trans h1 hgt), le_refl q⟩
      · obtain ⟨ha, hb⟩ := h3 fr0 hfr0 p0 hp0
        exact ⟨ha, le_trans hb (le_of_lt hgt)⟩
    · intro c hc
      exact le_trans (h5 c hc) (le_of_lt hgt)
  · exact ⟨h1, h2, h3, h4, h5⟩

/-- The backfill argument never exceeds the resulting ceiling. -/
theorem le_backfill_maxHpSeen (q : ℚ) (st : ParseState) :
    q ≤ (backfillFallbackHp q st).maxHpSeen := by
  unfold backfillFallbackHp
  split
  · exact le_refl q
  · rename_i hng
    exact le_of_not_lt hng

theorem hpInv_ensureCommentator (st : ParseState) (h : HpInv st) :
    HpInv (ensureCommentatorExists st) := by
  unfold ensureCommentatorExists; dsimp only
  split
  · exact h
  · split
    · rename_i c heq
      have h1 := hpInv_ensurePlayer "commentator" "解说员" "" st h
      refine hpInv_set_players _ _ ?_ h1
      refine alistSet_forall _ _ _ _ ?_ h1.2.1
      have hc := h1.2.1 ("commentator", c) (alistGet_mem _ _ _ heq)
      constructor
      · exact le_trans (le_of_lt h1.1) (le_max_right _ _)
      · exact max_le hc.2 (le_refl _)
    · exact hpInv_ensurePlayer "commentator" "解说员" "" st h


theorem hpInv_agentTextUpdate (e : String) (p : JRec) (a n : String) (st : ParseState)
    (h : HpInv st) : HpInv (agentTextUpdate e p a n st) := by
  unfold agentTextUpdate; dsimp only
  repeat' split
  all_goals (try exact h)
  all_goals try (
    rename_i x player heq hne hcid
    exact hpInv_pushLog "commentary" [("player_id", JVal.str a), ("text", JVal.str (parseAgentMessage (asString (rget p "message") ""))), ("source", JVal.str "agent_interaction")] { st with players := alistSet st.players a { player with message := parseAgentMessage (asString (rget p "message") "") } } (hpInv_set_players st _ (alistSet_forall _ _ _ _ (h.2.1 (a, player) (alistGet_mem _ _ _ heq)) h.2.1) h))
  all_goals try (
    rename_i x player heq hne
    exact hpInv_set_players st _
      (alistSet_forall _ _ _ _ (h.2.1 (a, player) (alistGet_mem _ _ _ heq)) h.2.1) h)


theorem hpInv_agentTextFrame (e : String) (p : JRec) (a n : String) (st : ParseState)
    (h : HpInv st) : HpInv (agentTextFrame e p a n st) := by
  unfold agentTextFrame; dsimp only
  split
  · exact hpInv_pushFrame e st h
  · exact hpInv_pushFrame e st h

theorem hpInv_foldl {α : Type} (f : ParseState → α → ParseState)
    (hf : ∀ b a, HpInv b → HpInv (f b a)) :
    ∀ (l : List α) (st : ParseState), HpInv st → HpInv (l.foldl f st) := by
  intro l
  induction l with
  | nil => intro st h; exact h
  | cons x t ih => intro st h; exact ih _ (hf _ _ h)

theorem hpInv_handleAgentInteraction (e : String) (p : JRec) (st : ParseState)
    (h : HpInv st) : HpInv (handleAgentInteraction e p st) := by
  unfold handleAgentInteraction; dsimp only
  split
  · apply hpInv_agentTextFrame
    split
    · apply hpInv_agentTextUpdate
      exact hpInv_foldl _ (fun b x hb => hpInv_ensurePlayer _ _ _ _ hb) _ _ (hpInv_ensurePlayer _ _ _ _ h)
    · exact hpInv_foldl _ (fun b x hb => hpInv_ensurePlayer _ _ _ _ hb) _ _ h
  · refine hpInv_foldl _ (fun b x hb => hpInv_ensurePlayer _ _ _ _ hb) _ _ ?_
    split
    · exact hpInv_ensurePlayer _ _ _ _ h
    · exact h

/-- Replacing only the truck keeps every HP fact. -/
theorem hpInv_truck (st : ParseState) (t : TruckState) (h : HpInv st) :
    HpInv { st with truck := t } := h

theorem hpInv_handleGameStarted (p : JRec) (st : ParseState) (h : HpInv st) :
    HpInv (handleGameStarted p st) := by
  unfold handleGameStarted; dsimp only
  apply hpInv_pushFrame
  apply hpInv_truck
  exact hpInv_foldl _ (fun b x hb => hpInv_ensurePlayer _ _ _ _ hb) _ _ h

theorem hpInv_handleTruckMoved (p : JRec) (st : ParseState) (h : HpInv st) :
    HpInv (handleTruckMoved p st) := by
  unfold handleTruckMoved; dsimp only
  apply hpInv_pushFrame
  exact hpInv_truck st _ h

theorem hpInv_handleCommentatorBroadcast (p : JRec) (st : ParseState) (h : HpInv st) :
    HpInv (handleCommentatorBroadcast p st) := by
  unfold handleCommentatorBroadcast; dsimp only
  apply hpInv_pushFrame
  apply hpInv_pushLog
  apply hpInv_setPlayer
  · exact fun q hq => hq
  · exact hpInv_ensurePlayer _ _ _ _ h

theorem hpInv_handlePublicBroadcast (p : JRec) (st : ParseState) (h : HpInv st) :
    HpInv (handlePublicBroadcast p st) := by
  unfold handlePublicBroadcast; dsimp only
  apply hpInv_pushFrame
  repeat' split
  all_goals (try exact hpInv_pushLog _ _ _ h)
  all_goals exact hpInv_pushLog _ _ _ (hpInv_setPlayer _ _ _ (fun q hq => hq) (hpInv_ensurePlayer _ _ _ _ h))


/-- Payload precondition: whenever the message payload carries a numeric
`lives` field, the value is nonnegative. -/
def livesOkP (payload : JRec) : Prop :=
  ∀ q : ℚ, rget payload "lives" = JVal.num q → 0 ≤ q

theorem lives_nonneg (payload : JRec) (d : ℚ) (hok : livesOkP payload) (hd : 0 ≤ d) :
    0 ≤ asNumber (rget payload "lives") d := by
  unfold asNumber
  split
  · rename_i q heq
    exact hok q heq
  · exact hd

/-- `patchFirst` only rewrites positions: every HP property of the original
list carries over. -/
theorem patchFirst_hp (l : List PlayerState) (a : String) (pos sign : ℚ) (P : ℚ → Prop)
    (hl : ∀ p ∈ l, P p.hp) : ∀ q ∈ patchFirst l a pos sign, P q.hp := by
  induction l with
  | nil => intro q hq; exact absurd hq (List.not_mem_nil q)
  | cons p t ih =>
    intro q hq
    unfold patchFirst at hq
    split at hq
    · rcases List.mem_cons.mp hq with rfl | hq
      · exact hl p (List.mem_cons_self _ _)
      · exact hl q (List.mem_cons_of_mem _ hq)
    · rcases List.mem_cons.mp hq with rfl | hq
      · exact hl q (List.mem_cons_self _ _)
      · exact ih (fun r hr => hl r (List.mem_cons_of_mem _ hr)) q hq

theorem hpInv_playerMovedCore (p : JRec) (a : String) (st : ParseState)
    (hok : livesOkP p) (h : HpInv st) : HpInv (playerMovedCore p a st) := by
  unfold playerMovedCore; dsimp only
  split
  · exact h
  · rename_i x player heq
    have hb := h.2.1 (a, player) (alistGet_mem _ _ _ heq)
    repeat' split
    all_goals refine hpInv_setPlayer _ _ _ (fun q hq => ⟨lives_nonneg p player.hp hok hb.1, le_backfill_maxHpSeen _ _⟩) (hpInv_backfill _ _ (hpInv_setPlayer _ _ _ (fun q2 hq2 => hq2) ?_))
    all_goals (try exact h)
    all_goals (try exact hpInv_set_players st _ (alistSet_forall _ _ _ _ hb h.2.1) h)
    all_goals (
      refine ⟨h.1, alistSet_forall _ _ _ _ hb h.2.1, ?_, h.2.2.2.1, h.2.2.2.2⟩
      intro fr hfr q hqf
      rcases List.mem_map.mp hfr with ⟨fr0, hfr0, rfl⟩
      exact patchFirst_hp _ _ _ _ (fun v => 0 ≤ v ∧ v ≤ st.maxHpSeen) (fun q0 hq0 => h.2.2.1 fr0 hfr0 q0 hq0) q hqf)


/-- Replacing only the known-position registry keeps every HP fact. -/
theorem hpInv_known (st : ParseState) (l : List String) (h : HpInv st) :
    HpInv { st with knownPositionByAgent := l } := h

/-- Replacing only the recorded actions keeps every HP fact. -/
theorem hpInv_actions (st : ParseState) (acts : List ReplayAction) (h : HpInv st) :
    HpInv { st with actions := acts } := h

theorem hpInv_playerMovedTail (p : JRec) (a n : String) (st : ParseState) (h : HpInv st) :
    HpInv (playerMovedTail p a n st) := by
  unfold playerMovedTail; dsimp only
  apply hpInv_actions
  exact hpInv_pushFrame "player_moved" st h

theorem hpInv_handlePlayerMoved (p : JRec) (st : ParseState) (hok : livesOkP p) (h : HpInv st) :
    HpInv (handlePlayerMoved p st) := by
  unfold handlePlayerMoved; dsimp only
  exact hpInv_playerMovedTail _ _ _ _ (hpInv_playerMovedCore _ _ _ hok (hpInv_ensurePlayer _ _ _ _ h))

theorem hpInv_handlePlayerHit (p : JRec) (st : ParseState) (hok : livesOkP p) (h : HpInv st) :
    HpInv (handlePlayerHit p st) := by
  unfold handlePlayerHit; dsimp only
  apply hpInv_pushFrame
  split
  · exact hpInv_ensurePlayer _ _ _ _ h
  · rename_i x player heq
    have h1 := hpInv_ensurePlayer (asString (rget p "agent_id") "") (asString (rget p "ai_name") (asString (rget p "agent_id") "")) (asString (rget p "avatar") (alistGetD st.avatarById (asString (rget p "agent_id") "") "")) st h
    have hb := h1.2.1 (asString (rget p "agent_id") "", player) (alistGet_mem _ _ _ heq)
    split
    · apply hpInv_known
      refine hpInv_setPlayer _ _ _ (fun q hq => hq) ?_
      refine hpInv_setPlayer _ _ _ (fun q hq => ⟨lives_nonneg p player.hp hok hb.1, le_backfill_maxHpSeen _ _⟩) ?_
      exact hpInv_backfill _ _ h1
    · refine hpInv_setPlayer _ _ _ (fun q hq => ⟨lives_nonneg p player.hp hok hb.1, le_backfill_maxHpSeen _ _⟩) ?_
      exact hpInv_backfill _ _ h1


theorem hpInv_dispatchEvent (e mt : String) (p : JRec) (st : ParseState)
    (hok : livesOkP p) (h : HpInv st) : HpInv (dispatchEvent e mt p st) := by
  unfold dispatchEvent
  repeat' split
  · exact hpInv_handleGameStarted _ _ h
  · exact hpInv_handleAgentInteraction _ _ _ h
  · exact hpInv_handlePlayerMoved _ _ hok h
  · exact hpInv_handlePlayerHit _ _ hok h
  · exact hpInv_handleTruckMoved _ _ h
  · exact hpInv_handleCommentatorBroadcast _ _ h
  · exact hpInv_handlePublicBroadcast _ _ h
  · exact hpInv_pushFrame _ _ h
  · exact h

theorem livesOkP_of_B (m : JVal) (hm : livesOkB m = true) :
    livesOkP (asRecord (rget (asRecord m) "payload")) := by
  intro q heq
  unfold livesOkB at hm
  rw [heq] at hm
  exact of_decide_eq_true hm

theorem hpInv_processMessage (st : ParseState) (m : JVal) (hm : livesOkB m = true)
    (h : HpInv st) : HpInv (processMessage st m) := by
  unfold processMessage; dsimp only
  apply hpInv_dispatchEvent _ _ _ _ (livesOkP_of_B m hm)
  split
  · split
    · exact h
    · exact h
  · exact h

theorem hpInv_processAll (msgs : List JVal) :
    ∀ (st : ParseState), (∀ m ∈ msgs, livesOkB m = true) → HpInv st →
      HpInv (processAll msgs st) := by
  unfold processAll
  induction msgs with
  | nil => intro st hok h; exact h
  | cons m t ih =>
    intro st hok h
    exact ih _ (fun x hx => hok x (List.mem_cons_of_mem _ hx))
      (hpInv_processMessage _ _ (hok m (List.mem_cons_self _ _)) h)

theorem hpInv_initState (input : JVal) : HpInv (initState input) := by
  unfold initState; dsimp only
  apply hpInv_ensureCommentator
  refine hpInv_foldl _ (fun b x hb => ?_) _ _ ?_
  · dsimp only
    split
    · exact hb
    · exact hpInv_ensurePlayer _ _ _ _ hb
  · refine ⟨?_, ?_, ?_, ?_, ?_⟩
    · decide
    · intro kp hkp; exact absurd hkp (List.not_mem_nil kp)
    · intro fr hfr; exact absurd hfr (List.not_mem_nil fr)
    · exact List.chain'_nil
    · intro c hc; exact absurd hc (List.not_mem_nil c)

theorem hpInv_finalize (st : ParseState) (h : HpInv st) : HpInv (finalize st) := by
  unfold finalize; dsimp only
  apply hpInv_ensureCommentator
  refine hpInv_set_players st _ ?_ h
  intro kp hkp
  rcases List.mem_map.mp hkp with ⟨kp0, hkp0, rfl⟩
  dsimp only
  constructor
  · exact le_max_left 0 _
  · exact max_le (le_of_lt h.1) (min_le_left _ _)

theorem hpInv_parseFinalState (input : JVal) (h : LivesOk input) :
    HpInv (parseFinalState input) := by
  unfold parseFinalState
  exact hpInv_finalize _ (hpInv_processAll _ _ h (hpInv_initState input))

/-- The repair pass never touches HP values. -/
theorem repairPlayer_hp (pb : List (String × PlayerState)) (l : String) (tr : ℚ)
    (mA : Option ReplayAction) (p : PlayerState) :
    (repairPlayer pb l tr mA p).hp = p.hp := by
  unfold repairPlayer; dsimp only; repeat' split
  all_goals (try dsimp only)
  all_goals (try (repeat' split))
  all_goals rfl

theorem repairGo_hp (abf : List (ℕ × ReplayAction)) (P : ℚ → Prop) :
    ∀ (l : List ReplayFrame) (prev : ReplayFrame) (i : ℕ),
      (∀ fr ∈ l, ∀ p ∈ fr.state.players, P p.hp) →
      ∀ fr ∈ repairGo abf prev l i, ∀ p ∈ fr.state.players, P p.hp := by
  intro l
  induction l with
  | nil => intro prev i hl fr hfr; exact absurd hfr (List.not_mem_nil fr)
  | cons c t ih =>
    intro prev i hl fr hfr
    unfold repairGo at hfr
    rcases List.mem_cons.mp hfr with rfl | hfr
    · intro p hp
      have hp2 : p ∈ c.state.players.map (repairPlayer (playersById prev.state.players) c.label c.state.track_length (alistGet abf i)) := hp
      rcases List.mem_map.mp hp2 with ⟨p0, hp0, rfl⟩
      rw [repairPlayer_hp]
      exact hl c (List.mem_cons_self _ _) p0 hp0
    · exact ih _ _ (fun fr2 hfr2 => hl fr2 (List.mem_cons_of_mem _ hfr2)) fr hfr

theorem repairFrames_hp (fs : List ReplayFrame) (abf : List (ℕ × ReplayAction)) (P : ℚ → Prop)
    (hl : ∀ fr ∈ fs, ∀ p ∈ fr.state.players, P p.hp) :
    ∀ fr ∈ repairFrames fs abf, ∀ p ∈ fr.state.players, P p.hp := by
  unfold repairFrames
  split
  · intro fr hfr; exact absurd hfr (List.not_mem_nil fr)
  · rename_i f rest
    intro fr hfr
    rcases List.mem_cons.mp hfr with rfl | hfr
    · exact hl fr (List.mem_cons_self _ _)
    · exact repairGo_hp abf P rest f 1 (fun fr2 hfr2 => hl fr2 (List.mem_cons_of_mem _ hfr2)) fr hfr


/-- C1 counterexample: the export `c1Input` (placeholder HP 3, a later max
HP 5 and a final `lives = -1`) violates the claimed at-that-point bound:
frame 0 was pushed under ceiling 3 but ends up showing HP 5 after the
backfill, and the final frame carries a negative HP. -/
theorem hp_bound_claim_counterexample : hpBoundClaimB c1Input = false := by decide

/-- C1 (amended): under the data assumption that every numeric `lives`
field of the export is nonnegative, every player of every frame returned by
`parseLegacyExport` has `0 ≤ hp ≤ maxHpSeen` for the final ceiling
`maxHpSeen`, and the ceiling recorded at the successive frame pushes never
decreases. -/
theorem hp_bound_final_ceiling (input : JVal) (h : LivesOk input) :
    (∀ fr ∈ (parseLegacyExport input).frames, ∀ p ∈ fr.state.players,
        0 ≤ p.hp ∧ p.hp ≤ (parseFinalState input).maxHpSeen) ∧
    List.Chain' (· ≤ ·) (parseFinalState input).maxHpAtPush := by
  constructor
  · intro fr hfr p hp
    have hI := hpInv_parseFinalState input h
    by_cases hE : (coreMessagesOf input).isEmpty = true
    · have ht : parseLegacyExport input = { frames := [], actions := [], discussions := [] } := by
        unfold parseLegacyExport; dsimp only; rw [if_pos hE]
      rw [ht] at hfr
      exact absurd hfr (List.not_mem_nil fr)
    · have ht : parseLegacyExport input =
          { frames := repairFrames (parseFinalState input).frames
              (actionByFrame (parseFinalState input).actions)
            actions := (parseFinalState input).actions
            discussions := (parseFinalState input).discussions } := by
        unfold parseLegacyExport; dsimp only; rw [if_neg hE]
      rw [ht] at hfr
      exact repairFrames_hp _ _ (fun v => 0 ≤ v ∧ v ≤ (parseFinalState input).maxHpSeen)
        (fun fr2 hfr2 p2 hp2 => hI.2.2.1 fr2 hfr2 p2 hp2) fr hfr p hp
  · exact (hpInv_parseFinalState input h).2.2.2.1

/-- Witness: the amended bound instantiated at the one-move export
`c1WitnessInput`. -/
theorem hp_bound_final_ceiling_witness :
    LivesOk c1WitnessInput ∧
    ((∀ fr ∈ (parseLegacyExport c1WitnessInput).frames, ∀ p ∈ fr.state.players,
        0 ≤ p.hp ∧ p.hp ≤ (parseFinalState c1WitnessInput).maxHpSeen) ∧
      List.Chain' (· ≤ ·) (parseFinalState c1WitnessInput).maxHpAtPush) :=
  ⟨by unfold LivesOk; decide, hp_bound_final_ceiling c1WitnessInput (by unfold LivesOk; decide)⟩

end TruckLoopReplay
